import Mathlib

/-!
ugly-duckling: module matching engine and concurrency controller

A shallow embedding of `module.go` (module validation, request building,
match evaluation, the module runner) together with the library calls it
relies on, followed by theorems about that embedding.

Conventions of the embedding:

* Go `string` values are Lean `String`s (sequences of Unicode characters);
  Go `int` values are `Int` (no arithmetic that could overflow is performed:
  the only arithmetic in the file is `count++`, bounded by a slice length).
* A Go function returning `(T, error)` that may also panic returns
  `Outcome T`: `ok v` for `(v, nil)`, `error e` for `(nil, e)`, and `panic`
  when the call does not return at all because a panic is raised.
* Library calls whose behaviour is not fixed by this repository
  (`regexp.Compile`, `url.Parse`, the HTTP round trip) are parameters.
-/

namespace UglyDuckling

/-! ## Results of calls -/

/-- Result of a Go call of type `(T, error)` that may panic. -/
inductive Outcome (α : Type) where
  | ok (val : α)
  | error (err : String)
  | panic
  deriving DecidableEq, Repr

deriving instance DecidableEq for Except

/-! ## Data model (`module.go`, lines 15-47) -/

/-- Go struct `moduleMatch`. -/
structure moduleMatch where
  Type_ : String
  Pattern : String
  Required : Bool
  Code : Int
  Name : String
  deriving DecidableEq, Repr

/-- Go struct `moduleRequest`. -/
structure moduleRequest where
  Method : String
  Path : String
  Paths : List String
  Body : String
  Headers : List String
  deriving DecidableEq, Repr

/-- Go struct `moduleResponse`. -/
structure moduleResponse where
  Matches : List moduleMatch
  MustNotMatch : List moduleMatch
  MatchesRequired : Int
  deriving DecidableEq, Repr

/-- Go struct `module`. -/
structure module where
  File : String
  Name : String
  Request : moduleRequest
  Response : moduleResponse
  deriving DecidableEq, Repr

/-- Go struct `finding`. -/
structure finding where
  Hit : Bool
  Msg : String
  deriving DecidableEq, Repr

/-! ## Library: `strings` -/

/-- Substring search on character lists: does `sub` occur in `s`? -/
def hasInfix : List Char → List Char → Bool
  | [], sub => sub.isEmpty
  | c :: cs, sub => sub.isPrefixOf (c :: cs) || hasInfix cs sub

/-- Go `strings.Contains(s, substr)`. -/
def stringsContains (s substr : String) : Bool :=
  hasInfix s.data substr.data

/-- Go `unicode.IsSpace`: the code points with the White_Space property. -/
def unicodeIsSpace (c : Char) : Bool :=
  let n := c.toNat
  (9 ≤ n && n ≤ 13) || n == 32 || n == 133 || n == 160 || n == 5760 ||
    (8192 ≤ n && n ≤ 8202) || n == 8232 || n == 8233 || n == 8239 ||
    n == 8287 || n == 12288

/-- Go `strings.TrimSpace`: drop leading and trailing white space. -/
def stringsTrimSpace (s : String) : String :=
  String.mk ((s.data.dropWhile unicodeIsSpace).reverse.dropWhile unicodeIsSpace).reverse

/-- Split a character list at the first occurrence of `sep`, if any. -/
def cutAt (sep : Char) : List Char → Option (List Char × List Char)
  | [] => none
  | c :: cs =>
    if c = sep then some ([], cs)
    else match cutAt sep cs with
      | none => none
      | some (before, after) => some (c :: before, after)

/-- Go `strings.SplitN(s, sep, 2)` for a one-character separator: the
whole string when `sep` does not occur, else the parts before and after its
first occurrence. -/
def stringsSplitN2 (s : String) (sep : Char) : List String :=
  match cutAt sep s.data with
  | none => [s]
  | some (before, after) => [String.mk before, String.mk after]

/-! ## Library: `regexp` -/

/-- A compiled regular expression, seen through `MatchString`. -/
structure Regexp where
  MatchString : String → Bool

/-- The regular-expression library: `regexp.Compile` yields a compiled
expression for a well-formed pattern and nothing for a malformed one. -/
structure RegexpLib where
  Compile : String → Option Regexp

/-- A small regular-expression library used for concrete evaluations. It
agrees with Go on the patterns it accepts: a pattern of ASCII letters and
digits only is a literal and matches the strings that contain it. Every
other pattern is reported as malformed, as Go does for `(`. -/
def literalRegexp : RegexpLib where
  Compile := fun pat =>
    if pat.data.all Char.isAlphanum then some ⟨fun s => stringsContains s pat⟩ else none

/-! ## Library: `net/http` headers -/

/-- Go `http.Header`: a map from keys to value lists, kept as an
association list with at most one entry per key. -/
abbrev Header := List (String × List String)

/-- Map read `h[key]`. -/
def Header.lookup (h : Header) (key : String) : Option (List String) :=
  match h with
  | [] => none
  | (k, vs) :: rest => if k = key then some vs else Header.lookup rest key

/-- Map write `h[key] = vs`. -/
def Header.assign (h : Header) (key : String) (vs : List String) : Header :=
  match h with
  | [] => [(key, vs)]
  | (k, old) :: rest =>
    if k = key then (k, vs) :: rest else (k, old) :: Header.assign rest key vs

/-- Go `validHeaderFieldByte`: the token characters of RFC 7230. -/
def validHeaderFieldByte (c : Char) : Bool :=
  c.isAlphanum || "!#$%&*+-.^_|~".data.contains c || c = Char.ofNat 39 || c = Char.ofNat 96

/-- Upper-case the first letter and every letter after a dash, lower-case
the other letters. -/
def canonLetters : Bool → List Char → List Char
  | _, [] => []
  | upper, c :: cs =>
    let d := if upper then c.toUpper else c.toLower
    d :: canonLetters (d = '-') cs

/-- Go `textproto.CanonicalMIMEHeaderKey`: a key made of token characters
only is brought to canonical capitalisation, any other key is unchanged. -/
def canonicalMIMEHeaderKey (s : String) : String :=
  if s.data.all validHeaderFieldByte then String.mk (canonLetters true s.data) else s

/-- Go `Header.Set(key, value)`. -/
def Header.Set (h : Header) (key value : String) : Header :=
  Header.assign h (canonicalMIMEHeaderKey key) [value]

/-- Go `Header.Get(key)`: the first value stored under the key, or `""`. -/
def Header.Get (h : Header) (key : String) : String :=
  match Header.lookup h (canonicalMIMEHeaderKey key) with
  | some (v :: _) => v
  | _ => ""

/-! ## Library: `net/http` requests, responses and clients -/

/-- Go `http.Request`, the fields this program sets or reads. `URL` is the
parsed request URL as `URL.String()` renders it. -/
structure Request where
  Method : String
  URL : String
  Body : String
  Header : UglyDuckling.Header
  deriving DecidableEq, Repr

/-- Go `http.Response`, the fields this program reads. `Body` is what
`ioutil.ReadAll(resp.Body)` returns: the whole body, or a read error. -/
structure Response where
  StatusCode : Int
  Header : UglyDuckling.Header
  Body : Except String String
  Request : UglyDuckling.Request

/-- Go `validMethod`: a non-empty string of token characters. -/
def validMethod (method : String) : Bool :=
  method.data.length > 0 && method.data.all validHeaderFieldByte

/-- The digit of `n % 16` in lower-case hexadecimal. -/
def lowerHex (n : Nat) : Char :=
  "0123456789abcdef".data.getD (n % 16) '0'

/-- Go `strconv.Quote` on one character: the quote and the backslash are
escaped with a backslash, the control characters are written as `\a`, `\b`,
`\f`, `\n`, `\r`, `\t`, `\v` or `\x` and two hexadecimal digits, and a
printable character stands for itself. Characters above U+007F are all
taken as printable here, where Go escapes those that are not. -/
def quoteChar (c : Char) : List Char :=
  let n := c.toNat
  let bs := Char.ofNat 92
  if n = 34 ∨ n = 92 then [bs, c]
  else if n = 7 then [bs, 'a']
  else if n = 8 then [bs, 'b']
  else if n = 12 then [bs, 'f']
  else if n = 10 then [bs, 'n']
  else if n = 13 then [bs, 'r']
  else if n = 9 then [bs, 't']
  else if n = 11 then [bs, 'v']
  else if n < 32 ∨ n = 127 then [bs, 'x', lowerHex (n / 16), lowerHex n]
  else [c]

/-- Go `strconv.Quote`, the rendering of the verb `%q`: the string between
double quotes, character by character as `quoteChar` gives it. -/
def strconvQuote (s : String) : String :=
  String.mk (Char.ofNat 34 :: (s.data.flatMap quoteChar ++ [Char.ofNat 34]))

/-- Go `http.NewRequest(method, url, body)`: an empty method means `GET`,
the method must be valid and the URL must parse (`urlParse` is `url.Parse`
followed by rendering). The new request has an empty header map. -/
def httpNewRequest (urlParse : String → Except String String)
    (method url body : String) : Except String Request :=
  let method := if method = "" then "GET" else method
  if !validMethod method then .error ("net/http: invalid method " ++ strconvQuote method)
  else match urlParse url with
    | .error e => .error e
    | .ok u => .ok { Method := method, URL := u, Body := body, Header := [] }

/-- Go `*http.Client`, seen through `Do`. The state `σ` stands for
everything outside the program that a round trip may read or change. -/
structure Client (σ : Type) where
  Do : σ → Request → Except String Response × σ

/-! ## `module.go`: `newModule` (lines 49-81) -/

/-- Go `newModule`. `osOpen` is `os.Open` (file name to contents) and
`jsonDecode` is decoding the contents into a zero-valued `module`. -/
def newModule (osOpen : String → Except String String)
    (jsonDecode : String → Except String module) (filename : String) :
    Except String module :=
  match osOpen filename with
  | .error e => .error e
  | .ok f =>
    match jsonDecode f with
    | .error e => .error e
    | .ok m =>
      let m := { m with File := filename }
      let m := if m.Name = "" then { m with Name := m.File } else m
      if m.Request.Path = "" ∧ m.Request.Paths.length = 0 then
        .error "module must specify request.path, or request.paths"
      else if m.Response.Matches.length = 0 then
        .error "module must have at least one match"
      else
        -- default to one match required
        let m := if m.Response.MatchesRequired = 0 then
          { m with Response := { m.Response with MatchesRequired := 1 } } else m
        .ok m

/-! ## `module.go`: `newRequest` (lines 83-108) -/

/-- Loop of `newRequest` over `m.Request.Headers`, acting on the header map
of the request under construction. -/
def setHeaders : List String → Header → Header
  | [], hdr => hdr
  | h :: rest, hdr =>
    let parts := stringsSplitN2 h ':'
    match parts with
    | [k, v] => setHeaders rest (Header.Set hdr (stringsTrimSpace k) (stringsTrimSpace v))
    | _ => setHeaders rest hdr

/-- Go `(*module).newRequest`. -/
def newRequest (urlParse : String → Except String String) (m : module)
    (baseURL path : String) : Except String Request :=
  match httpNewRequest urlParse m.Request.Method (baseURL ++ path) m.Request.Body with
  | .error e => .error e
  | .ok req => .ok { req with Header := setHeaders m.Request.Headers req.Header }

/-! ## `module.go`: `checkMatches` (lines 154-230) -/

/-- The closure `test` of `checkMatches`. `regexp.MustCompile` panics on a
pattern that `regexp.Compile` rejects. -/
def test (re : RegexpLib) (resp : Response) (m : moduleMatch) (body : String) :
    Outcome Bool :=
  if m.Type_ = "static" then
    .ok (stringsContains body m.Pattern)
  else if m.Type_ = "regex" then
    match re.Compile m.Pattern with
    | none => .panic
    | some r => .ok (r.MatchString body)
  else if m.Type_ = "status" then
    .ok (decide (resp.StatusCode = m.Code))
  else if m.Type_ = "header" then
    let val := resp.Header.Get m.Name
    match re.Compile m.Pattern with
    | none => .panic
    | some r => .ok (r.MatchString val)
  else
    .error ("unknown match type '" ++ m.Type_ ++ "'")

/-- The loop over `m.Response.Matches`, on the variables `count` and
`mustNotHit`. -/
def positiveLoop (re : RegexpLib) (resp : Response) (body : String) :
    List moduleMatch → Nat → Bool → Outcome (Nat × Bool)
  | [], count, mustNotHit => .ok (count, mustNotHit)
  | m :: rest, count, mustNotHit =>
    match test re resp m body with
    | .error e => .error e
    | .panic => .panic
    | .ok matched =>
      let mustNotHit := if !matched && m.Required then true else mustNotHit
      let count := if matched then count + 1 else count
      positiveLoop re resp body rest count mustNotHit

/-- The loop over `m.Response.MustNotMatch`, on the variable `mustNotHit`. -/
def negativeLoop (re : RegexpLib) (resp : Response) (body : String) :
    List moduleMatch → Bool → Outcome Bool
  | [], mustNotHit => .ok mustNotHit
  | m :: rest, mustNotHit =>
    match test re resp m body with
    | .error e => .error e
    | .panic => .panic
    | .ok matched =>
      let mustNotHit := if matched then true else mustNotHit
      negativeLoop re resp body rest mustNotHit

/-- Go `fmt.Sprintf("%s at %s (%d matches)", name, url, count)`. -/
def findingMsg (name url : String) (count : Nat) : String :=
  name ++ " at " ++ url ++ " (" ++ toString count ++ " matches)"

/-- Go `(*module).checkMatches`. The parameter `baseURL` is unused, as in
the source. -/
def checkMatches (re : RegexpLib) (m : module) (resp : Response)
    (body _baseURL : String) : Outcome finding :=
  match positiveLoop re resp body m.Response.Matches 0 false with
  | .error e => .error e
  | .panic => .panic
  | .ok (count, mustNotHit) =>
    match negativeLoop re resp body m.Response.MustNotMatch mustNotHit with
    | .error e => .error e
    | .panic => .panic
    | .ok mustNotHit =>
      let hit := decide ((count : Int) ≥ m.Response.MatchesRequired)
      let hit := if mustNotHit then false else hit
      .ok { Hit := hit, Msg := findingMsg m.Name resp.Request.URL count }

/-! ## `module.go`: `run` (lines 110-152) -/

/-- What a call of `run` produces: the returned pair `([]*finding, error)`
(a nil slice is the empty list, a nil error is `none`), or a panic. -/
inductive RunResult where
  | returned (out : List finding) (err : Option String)
  | panic
  deriving DecidableEq, Repr

/-- The loop of `run` over the paths, on the variable `out` and the state of
the world behind the client. -/
def runLoop {σ : Type} (re : RegexpLib) (urlParse : String → Except String String)
    (client : Client σ) (m : module) (baseURL : String) :
    List String → List finding → σ → RunResult × σ
  | [], out, s => (.returned out none, s)
  | path :: rest, out, s =>
    match newRequest urlParse m baseURL path with
    | .error e => (.returned [] (some e), s)
    | .ok req =>
      match client.Do s req with
      | (.error e, s1) => (.returned [] (some e), s1)
      | (.ok resp, s1) =>
        match resp.Body with
        | .error e => (.returned [] (some e), s1)
        | .ok body =>
          match checkMatches re m resp body baseURL with
          | .error e => (.returned out (some e), s1)
          | .panic => (.panic, s1)
          | .ok f => runLoop re urlParse client m baseURL rest (out ++ [f]) s1

/-- Go `(*module).run`. -/
def run {σ : Type} (re : RegexpLib) (urlParse : String → Except String String)
    (client : Client σ) (m : module) (baseURL : String) (s : σ) : RunResult × σ :=
  -- Default to using the paths list, fall back to single path
  let paths := if m.Request.Paths.length = 0 then [m.Request.Path] else m.Request.Paths
  runLoop re urlParse client m baseURL paths [] s

/-! ## `semaphore.go` -/

/-- Go `semaphore`, a buffered channel: `cap` is its capacity and `len` the
number of values it holds, which is the number of slots held. -/
structure semaphore where
  cap : Nat
  len : Nat
  deriving DecidableEq, Repr

/-- Go `newSemaphore(size)`: an empty channel of capacity `size`. -/
def newSemaphore (size : Nat) : semaphore :=
  { cap := size, len := 0 }

/-- Go `semaphore.acquire`, a send on the channel: it completes only while
the channel has room; `none` means that the caller stays blocked. -/
def semaphore.acquire (s : semaphore) : Option semaphore :=
  if s.len < s.cap then some { s with len := s.len + 1 } else none

/-- Go `semaphore.release`, a receive from the channel: it completes only
while the channel holds a value; `none` means that the caller stays blocked. -/
def semaphore.release (s : semaphore) : Option semaphore :=
  if 0 < s.len then some { s with len := s.len - 1 } else none

/-- The loop of `semaphore.wait` with `i` iterations left, when no other
goroutine takes a step in between. -/
def semaphore.waitLoop : Nat → semaphore → Option semaphore
  | 0, s => some s
  | i + 1, s =>
    match s.acquire with
    | none => none
    | some s1 => semaphore.waitLoop i s1

/-- Go `semaphore.wait`, when no other goroutine takes a step in between:
`cap(s)` acquires in a row. -/
def semaphore.wait (s : semaphore) : Option semaphore :=
  semaphore.waitLoop s.cap s

/-- The two operations on a semaphore, as labels of steps. -/
inductive SemOp where
  | acquire
  | release
  deriving DecidableEq, Repr

/-- One step of the semaphore: the operation completes, or is not enabled. -/
def semaphore.step (s : semaphore) : SemOp → Option semaphore
  | .acquire => s.acquire
  | .release => s.release

/-- A sequence of operations completing one after the other. -/
def semaphore.exec (s : semaphore) : List SemOp → Option semaphore
  | [] => some s
  | op :: ops =>
    match s.step op with
    | none => none
    | some s1 => semaphore.exec s1 ops

/-! ## `main.go`: the dispatch loop (lines 86-123), as a transition system -/

/-- The steps of the dispatcher and its units of work. `dispatch` is the
body of the inner loop of `main` (`sem.acquire()` followed by the `go`
statement), `unitRelease` the deferred `sem.release()` of one unit,
`callWait` the call of `sem.wait()` after the loops, and `waitAcquire` one
iteration of the loop of `wait`. -/
inductive Event where
  | dispatch
  | unitRelease
  | callWait
  | waitAcquire
  deriving DecidableEq, Repr

/-- State of the dispatcher: the semaphore, the number of units dispatched
so far, the number of units that have released their slot, whether
`sem.wait()` has been called and how many acquires it has completed. -/
structure Dispatcher where
  sem : semaphore
  dispatched : Nat
  released : Nat
  waitCalled : Bool
  waitAcquired : Nat
  deriving DecidableEq, Repr

/-- The dispatcher at start: `sem := newSemaphore(concurrency)`. -/
def Dispatcher.start (concurrency : Nat) : Dispatcher :=
  { sem := newSemaphore concurrency, dispatched := 0, released := 0, waitCalled := false,
    waitAcquired := 0 }

/-- One step of the dispatcher; `none` when the step is not enabled. -/
def Dispatcher.step (d : Dispatcher) : Event → Option Dispatcher
  | .dispatch =>
    if d.waitCalled then none
    else match d.sem.acquire with
      | none => none
      | some s => some { d with sem := s, dispatched := d.dispatched + 1 }
  | .unitRelease =>
    if d.released < d.dispatched then
      match d.sem.release with
      | none => none
      | some s => some { d with sem := s, released := d.released + 1 }
    else none
  | .callWait =>
    if d.waitCalled then none else some { d with waitCalled := true }
  | .waitAcquire =>
    if d.waitCalled && decide (d.waitAcquired < d.sem.cap) then
      match d.sem.acquire with
      | none => none
      | some s => some { d with sem := s, waitAcquired := d.waitAcquired + 1 }
    else none

/-- An interleaving: a sequence of steps taken one after the other. -/
def Dispatcher.exec (d : Dispatcher) : List Event → Option Dispatcher
  | [] => some d
  | ev :: evs =>
    match d.step ev with
    | none => none
    | some d1 => Dispatcher.exec d1 evs

/-- The call `sem.wait()` has returned: all `cap(s)` iterations are done. -/
def Dispatcher.waitReturned (d : Dispatcher) : Bool :=
  d.waitCalled && decide (d.waitAcquired = d.sem.cap)

/-- The units that are dispatched and have not released their slot. -/
def Dispatcher.running (d : Dispatcher) : Nat :=
  d.dispatched - d.released

/-! ## `main.go`: one unit of work (lines 96-112) -/

/-- What a unit of work does that can be observed from outside: lines
written to the standard output, and the release of its slot. -/
inductive Action where
  | print (line : String)
  | release
  deriving DecidableEq, Repr

/-- The closure `logf` of `main`: prints the message in verbose mode only. -/
def logf (verbose : Bool) (msg : String) : List Action :=
  if !verbose then [] else [.print (msg ++ "\n")]

/-- The loop of the unit of work over the findings that `run` returned. -/
def printFindings : List finding → List Action
  | [] => []
  | f :: rest =>
    if !f.Hit then printFindings rest
    else .print ("finding: " ++ f.Msg ++ "\n") :: printFindings rest

/-- The body of the goroutine started by `main`, given what `m.run`
produced; a panic of `run` leaves the body at once. -/
def workerBody (verbose : Bool) : RunResult → List Action
  | .panic => []
  | .returned _ (some err) => logf verbose ("request error: " ++ err)
  | .returned findings none => printFindings findings

/-- The goroutine started by `main`: its body, then the deferred
`sem.release()`, which runs when the body returns and when it panics. -/
def worker (verbose : Bool) (result : RunResult) : List Action :=
  workerBody verbose result ++ [.release]

/-- One unit of work: the module `m` run against `baseURL`. -/
def unitOfWork {σ : Type} (verbose : Bool) (re : RegexpLib)
    (urlParse : String → Except String String) (client : Client σ) (m : module)
    (baseURL : String) (s : σ) : List Action :=
  worker verbose (run re urlParse client m baseURL s).1

/-! ## Specification vocabulary for match evaluation -/

/-- A rule matches when its evaluation succeeds with the answer `true`. -/
def ruleMatches (re : RegexpLib) (resp : Response) (body : String) (r : moduleMatch) : Bool :=
  decide (test re resp r body = .ok true)

/-- The number of rules of a list that match. -/
def satisfiedCount (re : RegexpLib) (resp : Response) (body : String)
    (rules : List moduleMatch) : Nat :=
  rules.countP (ruleMatches re resp body)

/-- Some positive rule is required and does not match, or some negative
rule matches. -/
def forceNoHit (re : RegexpLib) (resp : Response) (body : String) (m : module) : Bool :=
  m.Response.Matches.any (fun r => r.Required && !ruleMatches re resp body r) ||
    m.Response.MustNotMatch.any (ruleMatches re resp body)

/-- No evaluation of a rule of the list fails: each yields an answer. -/
def EvalSucceeds (re : RegexpLib) (resp : Response) (body : String)
    (rules : List moduleMatch) : Prop :=
  ∀ r ∈ rules, ∃ b, test re resp r body = .ok b

instance (re : RegexpLib) (resp : Response) (body : String) (rules : List moduleMatch) :
    Decidable (EvalSucceeds re resp body rules) := by
  unfold EvalSucceeds; infer_instance

/-- The rule types that `test` handles. -/
def knownType (r : moduleMatch) : Bool :=
  r.Type_ = "static" || r.Type_ = "regex" || r.Type_ = "status" || r.Type_ = "header"

/-- The message of the error that `test` returns for an unknown type. -/
def unknownTypeError (r : moduleMatch) : String :=
  "unknown match type '" ++ r.Type_ ++ "'"

/-- Every pattern of a rule of type regex or header is well formed: the
regular-expression library compiles it. -/
def WellFormedPatterns (re : RegexpLib) (rules : List moduleMatch) : Prop :=
  ∀ r ∈ rules, r.Type_ = "regex" ∨ r.Type_ = "header" → (re.Compile r.Pattern).isSome = true

instance (re : RegexpLib) (rules : List moduleMatch) :
    Decidable (WellFormedPatterns re rules) := by
  unfold WellFormedPatterns; infer_instance

/-! ## Specification vocabulary for header parsing -/

/-- Key and value of one `request.headers` entry, in the words of the
specification: an entry without a colon has none; any other entry is split
once at its first colon and both sides are trimmed. -/
def headerEntry (h : String) : Option (String × String) :=
  if ':' ∈ h.data then
    some (stringsTrimSpace (String.mk (h.data.takeWhile (fun c => c != ':'))),
          stringsTrimSpace (String.mk ((h.data.dropWhile (fun c => c != ':')).drop 1)))
  else none

/-- Processing one entry: a malformed entry contributes nothing, any other
sets its key to its value. -/
def headerStep (hdr : Header) (h : String) : Header :=
  match headerEntry h with
  | none => hdr
  | some (k, v) => Header.Set hdr k v

/-- The header mapping obtained by processing the entries in order,
starting from the empty mapping. -/
def headerMapping (entries : List String) : Header :=
  entries.foldl headerStep []

/-- The value of the last well-formed entry whose key is `key` (keys are
compared in the canonical form under which a header map stores them). -/
def lastValueFor (entries : List String) (key : String) : Option String :=
  (((entries.filterMap headerEntry).filter
      (fun kv => decide (canonicalMIMEHeaderKey kv.1 = key))).getLast?).map Prod.snd

/-! ## Specification vocabulary for the module runner -/

/-- The effective path list: `paths` when it is non-empty, else the single
`path` wrapped as a one-element list. -/
def effectivePaths (m : module) : List String :=
  if m.Request.Paths ≠ [] then m.Request.Paths else [m.Request.Path]

/-- The responses that the client gives when the requests are sent one after
the other, starting in state `s`. -/
def sendAll {σ : Type} (client : Client σ) : List Request → σ → List (Except String Response)
  | [], _ => []
  | req :: rest, s => (client.Do s req).1 :: sendAll client rest (client.Do s req).2

/-- The finding for one answer of the client: `checkMatches` applied to the
response and its body; nothing when sending, body reading or evaluation
fails. -/
def findingOf (re : RegexpLib) (m : module) (baseURL : String)
    (answer : Except String Response) : Option finding :=
  match answer with
  | .error _ => none
  | .ok resp =>
    match resp.Body with
    | .error _ => none
    | .ok body =>
      match checkMatches re m resp body baseURL with
      | .ok f => some f
      | _ => none

/-- The state of the world after the requests were sent one after the other,
starting in state `s`. -/
def stateAfter {σ : Type} (client : Client σ) : List Request → σ → σ
  | [], s => s
  | req :: rest, s => stateAfter client rest (client.Do s req).2

/-- The findings for the answers of the client to the requests, in order. -/
def findingsFor {σ : Type} (re : RegexpLib) (client : Client σ) (m : module)
    (baseURL : String) (reqs : List Request) (s : σ) : List finding :=
  (sendAll client reqs s).filterMap (findingOf re m baseURL)

/-- The client `client`, observed: the second component of the state is the
list of the requests that `Do` was called with, in call order. -/
def recording {σ : Type} (client : Client σ) : Client (σ × List Request) where
  Do := fun st req => ((client.Do st.1 req).1, ((client.Do st.1 req).2, st.2 ++ [req]))

/-- The finding of the step of `run` for the path `p`, taken in state `s`:
nothing when building the request, sending it, reading the body or
evaluation fails. -/
def findingAtPath {σ : Type} (re : RegexpLib) (urlParse : String → Except String String)
    (client : Client σ) (m : module) (baseURL p : String) (s : σ) : Option finding :=
  match newRequest urlParse m baseURL p with
  | .error _ => none
  | .ok req => findingOf re m baseURL (client.Do s req).1

/-! ## Concrete inputs -/

/-- A `url.Parse` that accepts every string and renders it unchanged. -/
def plainURL : String → Except String String :=
  fun u => .ok u

/-- The request `GET http://target/admin`. -/
def adminRequest : Request :=
  { Method := "GET", URL := "http://target/admin", Body := "", Header := [] }

/-- A response with status 200, a `Server` header and a short body. -/
def adminResponse : Response :=
  { StatusCode := 200, Header := [("Server", ["nginx"])], Body := .ok "hello admin",
    Request := adminRequest }

/-- Three positive rules (one of them required) that all match
`adminResponse`, one negative rule that does not, two matches required. -/
def sampleModule : module :=
  { File := "sample.json", Name := "sample",
    Request := { Method := "GET", Path := "/admin", Paths := [], Body := "",
                 Headers := ["X-Test: 1", "Malformed", "X-Test: 2"] },
    Response := { Matches := [⟨"static", "admin", false, 0, ""⟩,
                              ⟨"status", "", true, 200, ""⟩,
                              ⟨"header", "nginx", false, 0, "server"⟩],
                  MustNotMatch := [⟨"regex", "zzz", false, 0, ""⟩],
                  MatchesRequired := 2 } }

/-- Two optional positive rules, two matches required; on `adminResponse`
both match. -/
def twoOfTwo : module :=
  { sampleModule with
    Response := { Matches := [⟨"static", "admin", false, 0, ""⟩,
                              ⟨"status", "", false, 200, ""⟩],
                  MustNotMatch := [], MatchesRequired := 2 } }

/-- Two optional positive rules, two matches required; on `adminResponse`
only the first matches. -/
def oneOfTwo : module :=
  { sampleModule with
    Response := { Matches := [⟨"static", "admin", false, 0, ""⟩,
                              ⟨"status", "", false, 404, ""⟩],
                  MustNotMatch := [], MatchesRequired := 2 } }

/-- One match required and one optional rule that matches `adminResponse`,
next to a required rule that does not. -/
def requiredFails : module :=
  { sampleModule with
    Response := { Matches := [⟨"static", "admin", false, 0, ""⟩,
                              ⟨"status", "", true, 404, ""⟩],
                  MustNotMatch := [], MatchesRequired := 1 } }

/-- One match required and one positive rule that matches `adminResponse`,
next to a negative rule that matches it too. -/
def negativeMatches : module :=
  { sampleModule with
    Response := { Matches := [⟨"static", "admin", false, 0, ""⟩],
                  MustNotMatch := [⟨"static", "hello", false, 0, ""⟩],
                  MatchesRequired := 1 } }

/-- A module definition as decoded from a file: a path, no name, no
`matchesRequired`, and negative rules only. -/
def onlyNegative : module :=
  { File := "", Name := "",
    Request := { Method := "GET", Path := "/admin", Paths := [], Body := "", Headers := [] },
    Response := { Matches := [], MustNotMatch := [⟨"static", "hello", false, 0, ""⟩],
                  MatchesRequired := 0 } }

/-- A module definition as decoded from a file: a path, no name, no
`matchesRequired`, one positive rule and one negative rule. -/
def decodedStatus : module :=
  { File := "", Name := "",
    Request := { Method := "GET", Path := "/admin", Paths := [], Body := "", Headers := [] },
    Response := { Matches := [⟨"status", "", false, 200, ""⟩],
                  MustNotMatch := [⟨"static", "hello", false, 0, ""⟩],
                  MatchesRequired := 0 } }

/-- A file system in which every file opens and has the contents `text`. -/
def fileWith (text : String) : String → Except String String :=
  fun _ => .ok text

/-- A decoder that yields the module `d` for every input. -/
def decodeTo (d : module) : String → Except String module :=
  fun _ => .ok d

/-- A positive rule that matches `adminResponse`, then a regex rule with the
malformed pattern `(`. -/
def malformedRegex : module :=
  { sampleModule with
    Response := { Matches := [⟨"static", "admin", false, 0, ""⟩,
                              ⟨"regex", "(", false, 0, ""⟩],
                  MustNotMatch := [], MatchesRequired := 1 } }

/-- A positive rule that matches `adminResponse` and a negative header rule
with the malformed pattern `(`. -/
def malformedNegative : module :=
  { sampleModule with
    Response := { Matches := [⟨"static", "admin", false, 0, ""⟩],
                  MustNotMatch := [⟨"header", "(", false, 0, "Server"⟩],
                  MatchesRequired := 1 } }

/-- Rules of known types that already decide the outcome on `adminResponse`
(a matching negative rule), followed by a negative rule of unknown type. -/
def unknownNegative : module :=
  { sampleModule with
    Response := { Matches := [⟨"static", "admin", false, 0, ""⟩],
                  MustNotMatch := [⟨"static", "hello", false, 0, ""⟩,
                                   ⟨"xpath", "hello", false, 0, ""⟩],
                  MatchesRequired := 1 } }

/-- A target that answers `http://target/a` with status 200 and every other
URL with status 404. -/
def targetRespond (req : Request) : Except String Response :=
  .ok { StatusCode := if req.URL = "http://target/a" then 200 else 404,
        Header := [], Body := .ok "hello admin", Request := req }

/-- A client for that target; its state is the log of the URLs requested. -/
def loggingClient : Client (List String) where
  Do := fun log req => (targetRespond req, log ++ [req.URL])

/-- A module with both `path` and `paths`, and one rule `status 200`. -/
def twoPaths : module :=
  { File := "two.json", Name := "two",
    Request := { Method := "GET", Path := "/ignored", Paths := ["/a", "/b"], Body := "",
                 Headers := [] },
    Response := { Matches := [⟨"status", "", false, 200, ""⟩], MustNotMatch := [],
                  MatchesRequired := 1 } }

/-- A target that answers `http://target/a` with status 200 and cannot be
reached for any other URL. -/
def flakyRespond (req : Request) : Except String Response :=
  if req.URL = "http://target/a" then
    .ok { StatusCode := 200, Header := [], Body := .ok "hello admin", Request := req }
  else .error "connection refused"

/-- A client for that target, without state. -/
def flakyClient : Client Unit where
  Do := fun _ req => (flakyRespond req, ())

/-- A client for a target that cannot be reached at all. -/
def deadClient : Client Unit where
  Do := fun _ _ => (.error "connection refused", ())

/-- The module definition of the end-to-end example, as decoded: `GET`,
the path `/admin`, one rule `status 200`, nothing else. -/
def decodedAdmin : module :=
  { File := "", Name := "",
    Request := { Method := "GET", Path := "/admin", Paths := [], Body := "", Headers := [] },
    Response := { Matches := [⟨"status", "", false, 200, ""⟩], MustNotMatch := [],
                  MatchesRequired := 0 } }

/-- A client for a target that answers every request with the status `code`
and an empty body. -/
def statusClient (code : Int) : Client Unit where
  Do := fun _ req =>
    (.ok { StatusCode := code, Header := [], Body := .ok "", Request := req }, ())

/-- A module definition as decoded, with a negative `matchesRequired` and
one positive rule that does not match `adminResponse`. -/
def negativeThreshold : module :=
  { File := "", Name := "",
    Request := { Method := "GET", Path := "/admin", Paths := [], Body := "", Headers := [] },
    Response := { Matches := [⟨"static", "zzz", false, 0, ""⟩], MustNotMatch := [],
                  MatchesRequired := -1 } }

/-- A module definition as decoded, whose only rule is of type static with
no pattern, with `matchesRequired` as given. -/
def emptyStatic (matchesRequired : Int) : module :=
  { File := "", Name := "",
    Request := { Method := "GET", Path := "/admin", Paths := [], Body := "", Headers := [] },
    Response := { Matches := [⟨"static", "", false, 0, ""⟩], MustNotMatch := [],
                  MatchesRequired := matchesRequired } }

/-! ## Lemmas on the two loops -/

theorem positiveLoop_ok (re : RegexpLib) (resp : Response) (body : String)
    (rules : List moduleMatch) (h : EvalSucceeds re resp body rules) (count : Nat)
    (mustNotHit : Bool) :
    positiveLoop re resp body rules count mustNotHit =
      .ok (count + satisfiedCount re resp body rules,
        mustNotHit || rules.any (fun r => r.Required && !ruleMatches re resp body r)) := by
  induction rules generalizing count mustNotHit with
  | nil => simp [positiveLoop, satisfiedCount]
  | cons r rs ih =>
    obtain ⟨b, hb⟩ := h r (List.mem_cons_self _ _)
    have ih1 := ih (fun x hx => h x (List.mem_cons_of_mem _ hx))
    cases b with
    | true =>
      have hm : ruleMatches re resp body r = true := by simp [ruleMatches, hb]
      simp only [positiveLoop, hb, ih1, satisfiedCount, List.countP_cons, hm, List.any_cons]
      simp
      omega
    | false =>
      have hm : ruleMatches re resp body r = false := by simp [ruleMatches, hb]
      simp only [positiveLoop, hb, ih1, satisfiedCount, List.countP_cons, hm, List.any_cons]
      cases r.Required <;> cases mustNotHit <;> simp

theorem negativeLoop_ok (re : RegexpLib) (resp : Response) (body : String)
    (rules : List moduleMatch) (h : EvalSucceeds re resp body rules) (mustNotHit : Bool) :
    negativeLoop re resp body rules mustNotHit =
      .ok (mustNotHit || rules.any (ruleMatches re resp body)) := by
  induction rules generalizing mustNotHit with
  | nil => simp [negativeLoop]
  | cons r rs ih =>
    obtain ⟨b, hb⟩ := h r (List.mem_cons_self _ _)
    have ih1 := ih (fun x hx => h x (List.mem_cons_of_mem _ hx))
    cases b with
    | true =>
      have hm : ruleMatches re resp body r = true := by simp [ruleMatches, hb]
      simp [negativeLoop, hb, ih1, hm]
    | false =>
      have hm : ruleMatches re resp body r = false := by simp [ruleMatches, hb]
      simp [negativeLoop, hb, ih1, hm]

/-- When no rule evaluation fails, `checkMatches` returns this finding. -/
theorem checkMatches_ok (re : RegexpLib) (m : module) (resp : Response)
    (body baseURL : String)
    (h : EvalSucceeds re resp body (m.Response.Matches ++ m.Response.MustNotMatch)) :
    checkMatches re m resp body baseURL =
      .ok { Hit := decide ((satisfiedCount re resp body m.Response.Matches : Int) ≥
                m.Response.MatchesRequired) && !forceNoHit re resp body m,
            Msg := findingMsg m.Name resp.Request.URL
                (satisfiedCount re resp body m.Response.Matches) } := by
  have hp : EvalSucceeds re resp body m.Response.Matches :=
    fun r hr => h r (List.mem_append_left _ hr)
  have hn : EvalSucceeds re resp body m.Response.MustNotMatch :=
    fun r hr => h r (List.mem_append_right _ hr)
  simp only [checkMatches, positiveLoop_ok re resp body _ hp, negativeLoop_ok re resp body _ hn,
    forceNoHit]
  simp only [Nat.zero_add, Bool.false_or]
  cases (m.Response.Matches.any fun r => r.Required && !ruleMatches re resp body r) <;>
    cases (m.Response.MustNotMatch.any (ruleMatches re resp body)) <;> simp

/-! ## Match evaluation: the hit flag -/

/-- C1: when no rule evaluation fails, `checkMatches` returns a finding whose
hit flag is `(satisfiedCount >= matchesRequired) AND NOT forceNoHit`, where
`satisfiedCount` counts all matching rules of `matches` and `forceNoHit`
holds exactly when a required rule of `matches` does not match or a rule
of `mustNotMatch` matches. -/
theorem checkMatches_hit_formula (re : RegexpLib) (m : module) (resp : Response)
    (body baseURL : String)
    (h : EvalSucceeds re resp body (m.Response.Matches ++ m.Response.MustNotMatch)) :
    (∃ f, checkMatches re m resp body baseURL = .ok f ∧
      f.Hit = (decide ((satisfiedCount re resp body m.Response.Matches : Int) ≥
                m.Response.MatchesRequired) && !forceNoHit re resp body m)) ∧
    satisfiedCount re resp body m.Response.Matches =
      (m.Response.Matches.filter (fun r => decide (test re resp r body = .ok true))).length ∧
    (forceNoHit re resp body m = true ↔
      (∃ r ∈ m.Response.Matches, r.Required = true ∧ test re resp r body = .ok false) ∨
      (∃ r ∈ m.Response.MustNotMatch, test re resp r body = .ok true)) := by
  refine ⟨⟨_, checkMatches_ok re m resp body baseURL h, rfl⟩, ?_, ?_⟩
  · simp only [satisfiedCount, List.countP_eq_length_filter]
    rfl
  · simp only [forceNoHit, Bool.or_eq_true, List.any_eq_true, Bool.and_eq_true,
      Bool.not_eq_true', ruleMatches, decide_eq_true_eq, decide_eq_false_iff_not]
    constructor
    · rintro (⟨r, hr, hreq, hno⟩ | ⟨r, hr, hyes⟩)
      · left
        obtain ⟨b, hb⟩ := h r (List.mem_append_left _ hr)
        refine ⟨r, hr, hreq, ?_⟩
        cases b
        · exact hb
        · exact absurd hb hno
      · exact Or.inr ⟨r, hr, hyes⟩
    · rintro (⟨r, hr, hreq, hno⟩ | ⟨r, hr, hyes⟩)
      · exact Or.inl ⟨r, hr, hreq, by simp [hno]⟩
      · exact Or.inr ⟨r, hr, hyes⟩

/-- Witness for C1 on `sampleModule` and `adminResponse`. -/
theorem checkMatches_hit_formula_witness :
    EvalSucceeds literalRegexp adminResponse "hello admin"
        (sampleModule.Response.Matches ++ sampleModule.Response.MustNotMatch) ∧
    checkMatches literalRegexp sampleModule adminResponse "hello admin" "http://target" =
      .ok ⟨true, "sample at http://target/admin (3 matches)"⟩ ∧
    ((∃ f, checkMatches literalRegexp sampleModule adminResponse "hello admin"
          "http://target" = .ok f ∧
        f.Hit = (decide ((satisfiedCount literalRegexp adminResponse "hello admin"
                  sampleModule.Response.Matches : Int) ≥
                  sampleModule.Response.MatchesRequired) &&
                !forceNoHit literalRegexp adminResponse "hello admin" sampleModule)) ∧
      satisfiedCount literalRegexp adminResponse "hello admin" sampleModule.Response.Matches =
        (sampleModule.Response.Matches.filter
          (fun r => decide (test literalRegexp adminResponse r "hello admin" = .ok true))).length ∧
      (forceNoHit literalRegexp adminResponse "hello admin" sampleModule = true ↔
        (∃ r ∈ sampleModule.Response.Matches,
          r.Required = true ∧ test literalRegexp adminResponse r "hello admin" = .ok false) ∨
        (∃ r ∈ sampleModule.Response.MustNotMatch,
          test literalRegexp adminResponse r "hello admin" = .ok true))) :=
  ⟨by decide, by decide,
    checkMatches_hit_formula literalRegexp sampleModule adminResponse "hello admin"
      "http://target" (by decide)⟩

/-- C2: with `matchesRequired = k`, all positive rules optional, no rule
evaluation failing and no negative rule matching, exactly `k` matching
positive rules give `hit = true` and exactly `k - 1` give `hit = false`. -/
theorem checkMatches_threshold (re : RegexpLib) (m : module) (resp : Response)
    (body baseURL : String) (k : Int) (hk : m.Response.MatchesRequired = k)
    (hopt : ∀ r ∈ m.Response.Matches, r.Required = false)
    (h : EvalSucceeds re resp body (m.Response.Matches ++ m.Response.MustNotMatch))
    (hneg : ∀ r ∈ m.Response.MustNotMatch, test re resp r body ≠ .ok true) :
    ((satisfiedCount re resp body m.Response.Matches : Int) = k →
      ∃ f, checkMatches re m resp body baseURL = .ok f ∧ f.Hit = true) ∧
    ((satisfiedCount re resp body m.Response.Matches : Int) = k - 1 →
      ∃ f, checkMatches re m resp body baseURL = .ok f ∧ f.Hit = false) := by
  have hforce : forceNoHit re resp body m = false := by
    simp only [forceNoHit, Bool.or_eq_false_iff, List.any_eq_false, Bool.and_eq_true,
      Bool.not_eq_true', not_and, ruleMatches, decide_eq_true_eq, Bool.not_eq_true,
      decide_eq_false_iff_not]
    exact ⟨fun r hr hreq => by simp [hopt r hr] at hreq, hneg⟩
  rw [checkMatches_ok re m resp body baseURL h, hforce, hk]
  constructor
  · intro hc
    exact ⟨_, rfl, by simp [hc]⟩
  · intro hc
    exact ⟨_, rfl, by simp [hc]⟩

/-- Witness for C2: `twoOfTwo` has exactly `k = 2` matching rules on
`adminResponse` and is a hit, `oneOfTwo` has exactly `k - 1 = 1` and is not. -/
theorem checkMatches_threshold_witness :
    ((satisfiedCount literalRegexp adminResponse "hello admin" twoOfTwo.Response.Matches : Int)
        = 2 ∧
      ∃ f, checkMatches literalRegexp twoOfTwo adminResponse "hello admin" "http://target"
        = .ok f ∧ f.Hit = true) ∧
    ((satisfiedCount literalRegexp adminResponse "hello admin" oneOfTwo.Response.Matches : Int)
        = 2 - 1 ∧
      ∃ f, checkMatches literalRegexp oneOfTwo adminResponse "hello admin" "http://target"
        = .ok f ∧ f.Hit = false) :=
  ⟨⟨by decide,
     (checkMatches_threshold literalRegexp twoOfTwo adminResponse "hello admin"
        "http://target" 2 (by decide) (by decide) (by decide) (by decide)).1 (by decide)⟩,
   ⟨by decide,
     (checkMatches_threshold literalRegexp oneOfTwo adminResponse "hello admin"
        "http://target" 2 (by decide) (by decide) (by decide) (by decide)).2 (by decide)⟩⟩

/-- C3: when no rule evaluation fails and some rule of `matches` with
`required = true` does not match, `checkMatches` returns `hit = false`,
whatever `matchesRequired` and the number of matching rules are. -/
theorem checkMatches_required_unmatched (re : RegexpLib) (m : module) (resp : Response)
    (body baseURL : String)
    (h : EvalSucceeds re resp body (m.Response.Matches ++ m.Response.MustNotMatch))
    (hreq : ∃ r ∈ m.Response.Matches, r.Required = true ∧ test re resp r body = .ok false) :
    ∃ f, checkMatches re m resp body baseURL = .ok f ∧ f.Hit = false := by
  obtain ⟨r, hr, hreq, hno⟩ := hreq
  have hforce : forceNoHit re resp body m = true := by
    simp only [forceNoHit, Bool.or_eq_true, List.any_eq_true, Bool.and_eq_true,
      Bool.not_eq_true', ruleMatches, decide_eq_false_iff_not]
    exact Or.inl ⟨r, hr, hreq, by simp [hno]⟩
  rw [checkMatches_ok re m resp body baseURL h, hforce]
  exact ⟨_, rfl, by simp⟩

/-- Witness for C3: in `requiredFails` the satisfied count reaches
`matchesRequired`, yet the unmatched required rule forces `hit = false`. -/
theorem checkMatches_required_unmatched_witness :
    ((satisfiedCount literalRegexp adminResponse "hello admin"
        requiredFails.Response.Matches : Int) ≥ requiredFails.Response.MatchesRequired) ∧
    ∃ f, checkMatches literalRegexp requiredFails adminResponse "hello admin" "http://target"
      = .ok f ∧ f.Hit = false :=
  ⟨by decide,
    checkMatches_required_unmatched literalRegexp requiredFails adminResponse "hello admin"
      "http://target" (by decide) ⟨⟨"status", "", true, 404, ""⟩, by decide, by decide, by decide⟩⟩

/-- C4: when no rule evaluation fails and some rule of `mustNotMatch`
matches, `checkMatches` returns `hit = false`, whatever `matchesRequired`
and the number of matching positive rules are. -/
theorem checkMatches_negative_matched (re : RegexpLib) (m : module) (resp : Response)
    (body baseURL : String)
    (h : EvalSucceeds re resp body (m.Response.Matches ++ m.Response.MustNotMatch))
    (hneg : ∃ r ∈ m.Response.MustNotMatch, test re resp r body = .ok true) :
    ∃ f, checkMatches re m resp body baseURL = .ok f ∧ f.Hit = false := by
  obtain ⟨r, hr, hyes⟩ := hneg
  have hforce : forceNoHit re resp body m = true := by
    simp only [forceNoHit, Bool.or_eq_true, List.any_eq_true, ruleMatches, decide_eq_true_eq]
    exact Or.inr ⟨r, hr, hyes⟩
  rw [checkMatches_ok re m resp body baseURL h, hforce]
  exact ⟨_, rfl, by simp⟩

/-- Witness for C4: in `negativeMatches` the satisfied count reaches
`matchesRequired`, yet the matching negative rule forces `hit = false`. -/
theorem checkMatches_negative_matched_witness :
    ((satisfiedCount literalRegexp adminResponse "hello admin"
        negativeMatches.Response.Matches : Int) ≥ negativeMatches.Response.MatchesRequired) ∧
    ∃ f, checkMatches literalRegexp negativeMatches adminResponse "hello admin" "http://target"
      = .ok f ∧ f.Hit = false :=
  ⟨by decide,
    checkMatches_negative_matched literalRegexp negativeMatches adminResponse "hello admin"
      "http://target" (by decide) ⟨⟨"static", "hello", false, 0, ""⟩, by decide, by decide⟩⟩

/-! ## Module validation -/

/-- C5: for a successfully decoded module definition `d`, `newModule`
returns an error (and no module) if and only if `request.path` and
`request.paths` are both empty or `response.matches` is empty; so a module
with negative rules only is rejected, and one with a path or paths and a
positive rule is accepted. -/
theorem newModule_rejects_iff (osOpen : String → Except String String)
    (jsonDecode : String → Except String module) (filename text : String) (d : module)
    (hopen : osOpen filename = .ok text) (hdec : jsonDecode text = .ok d) :
    ((∃ e, newModule osOpen jsonDecode filename = .error e) ↔
      (d.Request.Path = "" ∧ d.Request.Paths = []) ∨ d.Response.Matches = []) ∧
    (d.Response.Matches = [] → ∃ e, newModule osOpen jsonDecode filename = .error e) ∧
    ((d.Request.Path ≠ "" ∨ d.Request.Paths ≠ []) → d.Response.Matches ≠ [] →
      ∃ m, newModule osOpen jsonDecode filename = .ok m) := by
  have key : (d.Request.Path = "" ∧ d.Request.Paths = []) ∨ d.Response.Matches = [] ∨
      ∃ m, newModule osOpen jsonDecode filename = .ok m := by
    by_cases h1 : d.Request.Path = "" ∧ d.Request.Paths = []
    · exact Or.inl h1
    · by_cases h2 : d.Response.Matches = []
      · exact Or.inr (Or.inl h2)
      · refine Or.inr (Or.inr ?_)
        simp only [newModule, hopen, hdec]
        split_ifs <;> simp_all
  have rej1 : (d.Request.Path = "" ∧ d.Request.Paths = []) →
      ∃ e, newModule osOpen jsonDecode filename = .error e := by
    intro h1
    simp only [newModule, hopen, hdec]
    split_ifs <;> simp_all
  have rej2 : d.Response.Matches = [] →
      ∃ e, newModule osOpen jsonDecode filename = .error e := by
    intro h2
    simp only [newModule, hopen, hdec]
    split_ifs <;> simp_all
  refine ⟨⟨?_, ?_⟩, rej2, ?_⟩
  · rintro ⟨e, he⟩
    rcases key with h1 | h2 | ⟨m, hm⟩
    · exact Or.inl h1
    · exact Or.inr h2
    · rw [hm] at he
      cases he
  · rintro (h1 | h2)
    · exact rej1 h1
    · exact rej2 h2
  · intro hp hm
    rcases key with h1 | h2 | h3
    · rcases hp with hp | hp
      · exact absurd h1.1 hp
      · exact absurd h1.2 hp
    · exact absurd h2 hm
    · exact h3

/-- Witness for C5: `onlyNegative` has a path but only negative rules and
is rejected. -/
theorem newModule_rejects_iff_witness :
    newModule (fileWith "text") (decodeTo onlyNegative) "only-negative.json" =
      .error "module must have at least one match" ∧
    (((∃ e, newModule (fileWith "text") (decodeTo onlyNegative) "only-negative.json"
          = .error e) ↔
        (onlyNegative.Request.Path = "" ∧ onlyNegative.Request.Paths = []) ∨
          onlyNegative.Response.Matches = []) ∧
      (onlyNegative.Response.Matches = [] →
        ∃ e, newModule (fileWith "text") (decodeTo onlyNegative) "only-negative.json"
          = .error e) ∧
      ((onlyNegative.Request.Path ≠ "" ∨ onlyNegative.Request.Paths ≠ []) →
        onlyNegative.Response.Matches ≠ [] →
        ∃ m, newModule (fileWith "text") (decodeTo onlyNegative) "only-negative.json"
          = .ok m)) :=
  ⟨by decide,
    newModule_rejects_iff (fileWith "text") (decodeTo onlyNegative) "only-negative.json"
      "text" onlyNegative rfl rfl⟩

/-- C6: a decoded module definition `d` that passes validation is returned
with `matchesRequired` 1 when the decoded value was 0 and the decoded value
otherwise, with the file name as name when the decoded name was empty (and
the decoded name otherwise), and with the decoded request, positive rules and
negative rules unchanged. -/
theorem newModule_accepts (osOpen : String → Except String String)
    (jsonDecode : String → Except String module) (filename text : String) (d : module)
    (hopen : osOpen filename = .ok text) (hdec : jsonDecode text = .ok d)
    (hpath : d.Request.Path ≠ "" ∨ d.Request.Paths ≠ [])
    (hmatch : d.Response.Matches ≠ []) :
    ∃ m, newModule osOpen jsonDecode filename = .ok m ∧
      m.Response.MatchesRequired =
        (if d.Response.MatchesRequired = 0 then 1 else d.Response.MatchesRequired) ∧
      m.Name = (if d.Name = "" then filename else d.Name) ∧
      m.File = filename ∧
      m.Request = d.Request ∧
      m.Response.Matches = d.Response.Matches ∧
      m.Response.MustNotMatch = d.Response.MustNotMatch := by
  have h1 : ¬ (d.Request.Path = "" ∧ d.Request.Paths = []) := by
    rintro ⟨ha, hb⟩
    rcases hpath with hp | hp
    · exact hp ha
    · exact hp hb
  simp only [newModule, hopen, hdec, List.length_eq_zero]
  by_cases hn : d.Name = "" <;> by_cases hr : d.Response.MatchesRequired = 0 <;>
    simp [hn, hr, if_neg h1, hmatch]

/-- Witness for C6: `decodedStatus` has no name and no `matchesRequired`;
the validated module is named after its file and requires one match. -/
theorem newModule_accepts_witness :
    newModule (fileWith "text") (decodeTo decodedStatus) "status.json" =
      .ok { decodedStatus with
            File := "status.json", Name := "status.json",
            Response := { decodedStatus.Response with MatchesRequired := 1 } } ∧
    ∃ m, newModule (fileWith "text") (decodeTo decodedStatus) "status.json" = .ok m ∧
      m.Response.MatchesRequired =
        (if decodedStatus.Response.MatchesRequired = 0 then 1
          else decodedStatus.Response.MatchesRequired) ∧
      m.Name = (if decodedStatus.Name = "" then "status.json" else decodedStatus.Name) ∧
      m.File = "status.json" ∧
      m.Request = decodedStatus.Request ∧
      m.Response.Matches = decodedStatus.Response.Matches ∧
      m.Response.MustNotMatch = decodedStatus.Response.MustNotMatch :=
  ⟨by decide,
    newModule_accepts (fileWith "text") (decodeTo decodedStatus) "status.json" "text"
      decodedStatus rfl rfl (by decide) (by decide)⟩

/-! ## Match evaluation: failures -/

theorem test_malformed (re : RegexpLib) (resp : Response) (body : String) (r : moduleMatch)
    (hty : r.Type_ = "regex" ∨ r.Type_ = "header")
    (hbad : (re.Compile r.Pattern).isSome = false) :
    test re resp r body = .panic := by
  have hnone : re.Compile r.Pattern = none := by
    cases hc : re.Compile r.Pattern with
    | none => rfl
    | some c => simp [hc] at hbad
  rcases hty with h | h <;> simp [test, h, hnone]

theorem test_unknown (re : RegexpLib) (resp : Response) (body : String) (r : moduleMatch)
    (h : knownType r = false) : test re resp r body = .error (unknownTypeError r) := by
  simp only [knownType, Bool.or_eq_false_iff, decide_eq_false_iff_not] at h
  obtain ⟨⟨⟨h1, h2⟩, h3⟩, h4⟩ := h
  simp [test, h1, h2, h3, h4, unknownTypeError]

theorem test_known (re : RegexpLib) (resp : Response) (body : String) (r : moduleMatch)
    (h : knownType r = true)
    (hwf : r.Type_ = "regex" ∨ r.Type_ = "header" → (re.Compile r.Pattern).isSome = true) :
    ∃ b, test re resp r body = .ok b := by
  simp only [knownType, Bool.or_eq_true, decide_eq_true_eq] at h
  rcases h with ((h | h) | h) | h
  · simp [test, h]
  · obtain ⟨c, hc⟩ := Option.isSome_iff_exists.mp (hwf (Or.inl h))
    simp [test, h, hc]
  · simp [test, h]
  · obtain ⟨c, hc⟩ := Option.isSome_iff_exists.mp (hwf (Or.inr h))
    simp [test, h, hc]

theorem positiveLoop_panic (re : RegexpLib) (resp : Response) (body : String)
    (pre post : List moduleMatch) (r : moduleMatch) (hpre : EvalSucceeds re resp body pre)
    (hr : test re resp r body = .panic) (count : Nat) (mustNotHit : Bool) :
    positiveLoop re resp body (pre ++ r :: post) count mustNotHit = .panic := by
  induction pre generalizing count mustNotHit with
  | nil => simp [positiveLoop, hr]
  | cons x xs ih =>
    obtain ⟨b, hb⟩ := hpre x (List.mem_cons_self _ _)
    have ih1 := ih (fun y hy => hpre y (List.mem_cons_of_mem _ hy))
    simp [positiveLoop, hb, ih1]

theorem negativeLoop_panic (re : RegexpLib) (resp : Response) (body : String)
    (pre post : List moduleMatch) (r : moduleMatch) (hpre : EvalSucceeds re resp body pre)
    (hr : test re resp r body = .panic) (mustNotHit : Bool) :
    negativeLoop re resp body (pre ++ r :: post) mustNotHit = .panic := by
  induction pre generalizing mustNotHit with
  | nil => simp [negativeLoop, hr]
  | cons x xs ih =>
    obtain ⟨b, hb⟩ := hpre x (List.mem_cons_self _ _)
    have ih1 := ih (fun y hy => hpre y (List.mem_cons_of_mem _ hy))
    simp [negativeLoop, hb, ih1]

theorem positiveLoop_unknown (re : RegexpLib) (resp : Response) (body : String)
    (rules : List moduleMatch) (hwf : WellFormedPatterns re rules)
    (hun : ∃ r ∈ rules, knownType r = false) (count : Nat) (mustNotHit : Bool) :
    ∃ r ∈ rules, knownType r = false ∧
      positiveLoop re resp body rules count mustNotHit = .error (unknownTypeError r) := by
  induction rules generalizing count mustNotHit with
  | nil =>
    obtain ⟨r, hr, _⟩ := hun
    cases hr
  | cons x xs ih =>
    by_cases hx : knownType x = true
    · obtain ⟨b, hb⟩ := test_known re resp body x hx (hwf x (List.mem_cons_self _ _))
      have hun1 : ∃ r ∈ xs, knownType r = false := by
        obtain ⟨r, hr, hk⟩ := hun
        rcases List.mem_cons.mp hr with rfl | hr1
        · rw [hx] at hk
          cases hk
        · exact ⟨r, hr1, hk⟩
      obtain ⟨r, hr, hk, hloop⟩ :=
        ih (fun y hy => hwf y (List.mem_cons_of_mem _ hy)) hun1
          (if b then count + 1 else count) (if !b && x.Required then true else mustNotHit)
      exact ⟨r, List.mem_cons_of_mem _ hr, hk, by simp only [positiveLoop, hb, hloop]⟩
    · have hx1 : knownType x = false := by simpa using hx
      exact ⟨x, List.mem_cons_self _ _, hx1, by
        simp only [positiveLoop, test_unknown re resp body x hx1]⟩

theorem negativeLoop_unknown (re : RegexpLib) (resp : Response) (body : String)
    (rules : List moduleMatch) (hwf : WellFormedPatterns re rules)
    (hun : ∃ r ∈ rules, knownType r = false) (mustNotHit : Bool) :
    ∃ r ∈ rules, knownType r = false ∧
      negativeLoop re resp body rules mustNotHit = .error (unknownTypeError r) := by
  induction rules generalizing mustNotHit with
  | nil =>
    obtain ⟨r, hr, _⟩ := hun
    cases hr
  | cons x xs ih =>
    by_cases hx : knownType x = true
    · obtain ⟨b, hb⟩ := test_known re resp body x hx (hwf x (List.mem_cons_self _ _))
      have hun1 : ∃ r ∈ xs, knownType r = false := by
        obtain ⟨r, hr, hk⟩ := hun
        rcases List.mem_cons.mp hr with rfl | hr1
        · rw [hx] at hk
          cases hk
        · exact ⟨r, hr1, hk⟩
      obtain ⟨r, hr, hk, hloop⟩ :=
        ih (fun y hy => hwf y (List.mem_cons_of_mem _ hy)) hun1
          (if b then true else mustNotHit)
      exact ⟨r, List.mem_cons_of_mem _ hr, hk, by simp only [negativeLoop, hb, hloop]⟩
    · have hx1 : knownType x = false := by simpa using hx
      exact ⟨x, List.mem_cons_self _ _, hx1, by
        simp only [negativeLoop, test_unknown re resp body x hx1]⟩

/-- C7: a rule of type regex or header whose pattern the library rejects
makes `checkMatches` panic as soon as evaluation reaches it, in `matches` as
in `mustNotMatch`: no error value is returned. -/
theorem checkMatches_malformed_pattern_panics (re : RegexpLib) (m : module)
    (resp : Response) (body baseURL : String) (r : moduleMatch)
    (hty : r.Type_ = "regex" ∨ r.Type_ = "header")
    (hbad : (re.Compile r.Pattern).isSome = false) :
    (∀ pre post, m.Response.Matches = pre ++ r :: post → EvalSucceeds re resp body pre →
      checkMatches re m resp body baseURL = .panic) ∧
    (∀ pre post, m.Response.MustNotMatch = pre ++ r :: post →
      EvalSucceeds re resp body (m.Response.Matches ++ pre) →
      checkMatches re m resp body baseURL = .panic) := by
  have hr := test_malformed re resp body r hty hbad
  constructor
  · intro pre post hm hpre
    simp only [checkMatches, hm, positiveLoop_panic re resp body pre post r hpre hr]
  · intro pre post hm hpre
    have hp : EvalSucceeds re resp body m.Response.Matches :=
      fun x hx => hpre x (List.mem_append_left _ hx)
    have hn : EvalSucceeds re resp body pre :=
      fun x hx => hpre x (List.mem_append_right _ hx)
    simp only [checkMatches, positiveLoop_ok re resp body _ hp, hm,
      negativeLoop_panic re resp body pre post r hn hr]

/-- Evaluation of C7 at concrete inputs: the malformed pattern `(` in a
positive regex rule, and in a negative header rule, makes `checkMatches`
panic on `adminResponse`. -/
theorem checkMatches_malformed_pattern_panics_witness :
    (literalRegexp.Compile "(").isSome = false ∧
    checkMatches literalRegexp malformedRegex adminResponse "hello admin" "http://target"
      = .panic ∧
    checkMatches literalRegexp malformedNegative adminResponse "hello admin" "http://target"
      = .panic :=
  ⟨by decide,
    (checkMatches_malformed_pattern_panics literalRegexp malformedRegex adminResponse
      "hello admin" "http://target" ⟨"regex", "(", false, 0, ""⟩ (by decide) (by decide)).1
      [⟨"static", "admin", false, 0, ""⟩] [] (by decide) (by decide),
    (checkMatches_malformed_pattern_panics literalRegexp malformedNegative adminResponse
      "hello admin" "http://target" ⟨"header", "(", false, 0, "Server"⟩ (by decide)
      (by decide)).2 [] [] (by decide) (by decide)⟩

/-- C8: when every regex and header pattern is well formed, `checkMatches`
returns an error (and no finding) if and only if some rule of `matches` or
`mustNotMatch` has a type other than static, regex, status and header; the
error names the type of such a rule, and without such a rule a finding is
returned. -/
theorem checkMatches_error_iff_unknown_type (re : RegexpLib) (m : module)
    (resp : Response) (body baseURL : String)
    (hwf : WellFormedPatterns re (m.Response.Matches ++ m.Response.MustNotMatch)) :
    ((∃ e, checkMatches re m resp body baseURL = .error e) ↔
      ∃ r ∈ m.Response.Matches ++ m.Response.MustNotMatch, knownType r = false) ∧
    ((∃ r ∈ m.Response.Matches ++ m.Response.MustNotMatch, knownType r = false) →
      ∃ r ∈ m.Response.Matches ++ m.Response.MustNotMatch, knownType r = false ∧
        checkMatches re m resp body baseURL = .error (unknownTypeError r)) ∧
    ((∀ r ∈ m.Response.Matches ++ m.Response.MustNotMatch, knownType r = true) →
      ∃ f, checkMatches re m resp body baseURL = .ok f) := by
  have hwfp : WellFormedPatterns re m.Response.Matches :=
    fun r hr => hwf r (List.mem_append_left _ hr)
  have hwfn : WellFormedPatterns re m.Response.MustNotMatch :=
    fun r hr => hwf r (List.mem_append_right _ hr)
  have hgood : (∀ r ∈ m.Response.Matches ++ m.Response.MustNotMatch, knownType r = true) →
      ∃ f, checkMatches re m resp body baseURL = .ok f := by
    intro hall
    exact ⟨_, checkMatches_ok re m resp body baseURL
      (fun r hr => test_known re resp body r (hall r hr) (hwf r hr))⟩
  have hbad : (∃ r ∈ m.Response.Matches ++ m.Response.MustNotMatch, knownType r = false) →
      ∃ r ∈ m.Response.Matches ++ m.Response.MustNotMatch, knownType r = false ∧
        checkMatches re m resp body baseURL = .error (unknownTypeError r) := by
    intro hun
    by_cases hp : ∃ r ∈ m.Response.Matches, knownType r = false
    · obtain ⟨r, hr, hk, hloop⟩ := positiveLoop_unknown re resp body _ hwfp hp 0 false
      exact ⟨r, List.mem_append_left _ hr, hk, by simp only [checkMatches, hloop]⟩
    · have hpk : ∀ r ∈ m.Response.Matches, knownType r = true := by
        intro r hr
        by_contra hc
        exact hp ⟨r, hr, by simpa using hc⟩
      have hev : EvalSucceeds re resp body m.Response.Matches :=
        fun r hr => test_known re resp body r (hpk r hr) (hwfp r hr)
      have hn : ∃ r ∈ m.Response.MustNotMatch, knownType r = false := by
        obtain ⟨r, hr, hk⟩ := hun
        rcases List.mem_append.mp hr with h1 | h1
        · rw [hpk r h1] at hk
          cases hk
        · exact ⟨r, h1, hk⟩
      obtain ⟨r, hr, hk, hloop⟩ := negativeLoop_unknown re resp body _ hwfn hn
        (false || m.Response.Matches.any (fun r => r.Required && !ruleMatches re resp body r))
      exact ⟨r, List.mem_append_right _ hr, hk, by
        simp only [checkMatches, positiveLoop_ok re resp body _ hev, hloop]⟩
  refine ⟨⟨?_, ?_⟩, hbad, hgood⟩
  · rintro ⟨e, he⟩
    by_contra hc
    have hall : ∀ r ∈ m.Response.Matches ++ m.Response.MustNotMatch, knownType r = true := by
      intro r hr
      by_contra hk
      exact hc ⟨r, hr, by simpa using hk⟩
    obtain ⟨f, hf⟩ := hgood hall
    rw [hf] at he
    cases he
  · intro hun
    obtain ⟨r, _, _, hr⟩ := hbad hun
    exact ⟨_, hr⟩

/-- Witness for C8: in `unknownNegative` the only rule of unknown type is
the last negative rule, after a negative rule that matches; the result is
the error, not a finding. -/
theorem checkMatches_error_iff_unknown_type_witness :
    WellFormedPatterns literalRegexp
      (unknownNegative.Response.Matches ++ unknownNegative.Response.MustNotMatch) ∧
    checkMatches literalRegexp unknownNegative adminResponse "hello admin" "http://target"
      = .error "unknown match type 'xpath'" ∧
    ((∃ e, checkMatches literalRegexp unknownNegative adminResponse "hello admin"
        "http://target" = .error e) ↔
      ∃ r ∈ unknownNegative.Response.Matches ++ unknownNegative.Response.MustNotMatch,
        knownType r = false) :=
  ⟨by decide, by decide,
    (checkMatches_error_iff_unknown_type literalRegexp unknownNegative adminResponse
      "hello admin" "http://target" (by decide)).1⟩

/-! ## Request building: headers -/

theorem cutAt_eq (sep : Char) (l : List Char) :
    cutAt sep l =
      if sep ∈ l then
        some (l.takeWhile (fun c => c != sep), (l.dropWhile (fun c => c != sep)).drop 1)
      else none := by
  induction l with
  | nil => simp [cutAt]
  | cons c cs ih =>
    by_cases hc : c = sep
    · subst hc
      simp [cutAt, List.takeWhile_cons, List.dropWhile_cons]
    · have hne : sep ≠ c := fun h => hc h.symm
      by_cases hmem : sep ∈ cs
      · simp [cutAt, hc, hne, ih, hmem, List.takeWhile_cons, List.dropWhile_cons]
      · simp [cutAt, hc, hne, ih, hmem]

theorem setHeaders_eq_foldl (entries : List String) (hdr : Header) :
    setHeaders entries hdr = entries.foldl headerStep hdr := by
  induction entries generalizing hdr with
  | nil => rfl
  | cons h rest ih =>
    by_cases hmem : ':' ∈ h.data
    · simp [setHeaders, stringsSplitN2, cutAt_eq, headerStep, headerEntry, hmem, ih]
    · simp [setHeaders, stringsSplitN2, cutAt_eq, headerStep, headerEntry, hmem, ih]

theorem lookup_assign (h : Header) (k key : String) (vs : List String) :
    Header.lookup (Header.assign h k vs) key =
      if k = key then some vs else Header.lookup h key := by
  induction h with
  | nil => simp [Header.assign, Header.lookup]
  | cons kv rest ih =>
    obtain ⟨k1, old⟩ := kv
    by_cases h1 : k1 = k
    · subst h1
      by_cases h2 : k1 = key <;> simp [Header.assign, Header.lookup, h2]
    · by_cases h2 : k1 = key
      · subst h2
        have h3 : ¬ k = k1 := fun e => h1 e.symm
        simp [Header.assign, Header.lookup, h1, h3]
      · simp [Header.assign, Header.lookup, h1, h2, ih]

theorem lookup_foldl_headerStep (entries : List String) (hdr : Header) (key : String) :
    Header.lookup (entries.foldl headerStep hdr) key =
      match lastValueFor entries key with
      | some v => some [v]
      | none => Header.lookup hdr key := by
  induction entries using List.reverseRecOn with
  | nil => simp [lastValueFor]
  | append_singleton es e ih =>
    rw [List.foldl_append]
    simp only [List.foldl_cons, List.foldl_nil]
    cases hent : headerEntry e with
    | none =>
      have hl : lastValueFor (es ++ [e]) key = lastValueFor es key := by
        simp [lastValueFor, hent]
      rw [hl]
      simpa [headerStep, hent] using ih
    | some kv =>
      obtain ⟨k, v⟩ := kv
      by_cases hk : canonicalMIMEHeaderKey k = key
      · have hl : lastValueFor (es ++ [e]) key = some v := by
          simp [lastValueFor, hent, hk]
        rw [hl]
        simp [headerStep, hent, Header.Set, lookup_assign, hk]
      · have hl : lastValueFor (es ++ [e]) key = lastValueFor es key := by
          simp [lastValueFor, hent, hk]
        rw [hl]
        simpa [headerStep, hent, Header.Set, lookup_assign, hk] using ih

/-- C9: the header mapping of the request built by `newRequest` is the
result of processing the `request.headers` entries in order (an entry
without a colon contributes nothing, any other is split at its first colon,
trimmed, and set); each key present maps to the value of the last
well-formed entry with that key; and the entries
`X-Test: 1`, `Malformed`, `X-Test: 2` give `X-Test = 2` and nothing else. -/
theorem newRequest_header_mapping (urlParse : String → Except String String) (m : module)
    (baseURL path : String) (req0 : Request)
    (hbuild : httpNewRequest urlParse m.Request.Method (baseURL ++ path) m.Request.Body
      = .ok req0) :
    (∃ req, newRequest urlParse m baseURL path = .ok req ∧
      req.Header = headerMapping m.Request.Headers ∧
      (∀ key, Header.lookup req.Header key =
        (lastValueFor m.Request.Headers key).map (fun v => [v])) ∧
      (∀ name, Header.Get req.Header name =
        (lastValueFor m.Request.Headers (canonicalMIMEHeaderKey name)).getD "")) ∧
    headerEntry "Malformed" = none ∧
    headerEntry "X-Test: 1" = some ("X-Test", "1") ∧
    headerMapping ["X-Test: 1", "Malformed", "X-Test: 2"] = [("X-Test", ["2"])] := by
  have hempty : req0.Header = [] := by
    simp only [httpNewRequest] at hbuild
    cases hu : urlParse (baseURL ++ path) with
    | error e =>
      simp only [hu] at hbuild
      split_ifs at hbuild
    | ok u =>
      simp only [hu] at hbuild
      split_ifs at hbuild <;> cases hbuild <;> rfl
  have hlook : ∀ key, Header.lookup (headerMapping m.Request.Headers) key =
      (lastValueFor m.Request.Headers key).map (fun v => [v]) := by
    intro key
    rw [headerMapping, lookup_foldl_headerStep]
    cases lastValueFor m.Request.Headers key <;> simp [Header.lookup]
  refine ⟨⟨{ req0 with Header := headerMapping m.Request.Headers }, ?_, rfl, hlook, ?_⟩,
    by decide, by decide, by decide⟩
  · simp only [newRequest, hbuild, hempty, setHeaders_eq_foldl, headerMapping]
  · intro name
    simp only [Header.Get, hlook]
    cases lastValueFor m.Request.Headers (canonicalMIMEHeaderKey name) <;> simp

/-- Witness for C9: `sampleModule` carries the three entries of the
example; the request built for `/admin` has the single header `X-Test: 2`. -/
theorem newRequest_header_mapping_witness :
    httpNewRequest plainURL sampleModule.Request.Method ("http://target" ++ "/admin")
      sampleModule.Request.Body = .ok ⟨"GET", "http://target/admin", "", []⟩ ∧
    newRequest plainURL sampleModule "http://target" "/admin" =
      .ok ⟨"GET", "http://target/admin", "", [("X-Test", ["2"])]⟩ ∧
    ∃ req, newRequest plainURL sampleModule "http://target" "/admin" = .ok req ∧
      req.Header = headerMapping sampleModule.Request.Headers :=
  ⟨by decide, by decide,
    (newRequest_header_mapping plainURL sampleModule "http://target" "/admin"
      ⟨"GET", "http://target/admin", "", []⟩ (by decide)).1.imp
      (fun _ h => ⟨h.1, h.2.1⟩)⟩

/-! ## Module runner: the successful run -/

theorem runLoop_success {σ : Type} (re : RegexpLib)
    (urlParse : String → Except String String) (client : Client σ) (m : module)
    (baseURL : String) (paths : List String) (reqs : List Request)
    (hreqs : paths.map (newRequest urlParse m baseURL) = reqs.map Except.ok)
    (out : List finding) (s : σ)
    (hall : ∀ a ∈ sendAll client reqs s, (findingOf re m baseURL a).isSome = true) :
    ∃ fs, (runLoop re urlParse client m baseURL paths out s).1 = .returned (out ++ fs) none ∧
      fs.map some = (sendAll client reqs s).map (findingOf re m baseURL) := by
  induction paths generalizing reqs out s with
  | nil =>
    cases reqs with
    | nil => exact ⟨[], by simp [runLoop], rfl⟩
    | cons req rest => simp at hreqs
  | cons p ps ih =>
    cases reqs with
    | nil => simp at hreqs
    | cons req rest =>
      simp only [List.map_cons, List.cons.injEq] at hreqs
      obtain ⟨hreq, hrest⟩ := hreqs
      have hp := hall _ (List.mem_cons_self _ _)
      have hps : ∀ a ∈ sendAll client rest (client.Do s req).2,
          (findingOf re m baseURL a).isSome = true :=
        fun a ha => hall a (List.mem_cons_of_mem _ ha)
      rcases hdo : client.Do s req with ⟨r, s1⟩
      rw [hdo] at hp hps
      cases r with
      | error e => simp [findingOf] at hp
      | ok resp =>
        cases hbody : resp.Body with
        | error e => simp [findingOf, hbody] at hp
        | ok body =>
          cases hchk : checkMatches re m resp body baseURL with
          | error e => simp [findingOf, hbody, hchk] at hp
          | panic => simp [findingOf, hbody, hchk] at hp
          | ok f =>
            obtain ⟨fs, h1, h2⟩ := ih rest hrest (out ++ [f]) s1 hps
            refine ⟨f :: fs, ?_, ?_⟩
            · simp only [runLoop, hreq, hdo, hbody, hchk]
              rw [h1]
              simp
            · simp [sendAll, hdo, findingOf, hbody, hchk, h2]

theorem run_paths_eq (m : module) :
    (if m.Request.Paths.length = 0 then [m.Request.Path] else m.Request.Paths) =
      effectivePaths m := by
  cases h : m.Request.Paths <;> simp [effectivePaths, h]

theorem length_sendAll {σ : Type} (client : Client σ) (reqs : List Request) (s : σ) :
    (sendAll client reqs s).length = reqs.length := by
  induction reqs generalizing s with
  | nil => rfl
  | cons req rest ih => simp [sendAll, ih]

/-- C10: when, for every effective path, the request is built (`reqs`),
the client answers it, the body is read and evaluation succeeds, `run`
returns no error and exactly one finding per effective path, in path order;
the i-th finding is `checkMatches` applied to the client's response to the
i-th request, whose URL is `baseURL` followed by the i-th path. The
effective paths are `request.paths` when non-empty (`request.path` is then
ignored) and `[request.path]` otherwise. -/
theorem run_all_paths_succeed {σ : Type} (re : RegexpLib)
    (urlParse : String → Except String String) (client : Client σ) (m : module)
    (baseURL : String) (s : σ) (reqs : List Request)
    (hreqs : (effectivePaths m).map (newRequest urlParse m baseURL) = reqs.map Except.ok)
    (hall : ∀ a ∈ sendAll client reqs s, (findingOf re m baseURL a).isSome = true) :
    (∃ out, (run re urlParse client m baseURL s).1 = .returned out none ∧
      out.length = (effectivePaths m).length ∧
      out.map some = (sendAll client reqs s).map (findingOf re m baseURL)) ∧
    (∀ p req, newRequest urlParse m baseURL p = .ok req →
      urlParse (baseURL ++ p) = .ok req.URL) ∧
    (m.Request.Paths ≠ [] → effectivePaths m = m.Request.Paths) ∧
    (m.Request.Paths = [] → effectivePaths m = [m.Request.Path]) := by
  refine ⟨?_, ?_, ?_, ?_⟩
  · obtain ⟨fs, h1, h2⟩ :=
      runLoop_success re urlParse client m baseURL (effectivePaths m) reqs hreqs [] s hall
    refine ⟨fs, ?_, ?_, h2⟩
    · simp only [run, run_paths_eq]
      simpa using h1
    · have hl1 := congrArg List.length h2
      have hl2 := congrArg List.length hreqs
      simp only [List.length_map, length_sendAll] at hl1 hl2
      omega
  · intro p req hreq
    simp only [newRequest, httpNewRequest] at hreq
    cases hu : urlParse (baseURL ++ p) with
    | error e =>
      simp only [hu] at hreq
      split_ifs at hreq
    | ok u =>
      simp only [hu] at hreq
      split_ifs at hreq <;> cases hreq <;> rfl
  · intro h
    simp [effectivePaths, h]
  · intro h
    simp [effectivePaths, h]

/-- Witness for C10: `twoPaths` has `paths = ["/a", "/b"]` next to a `path`;
the run yields two findings, for `/a` and `/b` in that order, and the
client was called for these two URLs. -/
theorem run_all_paths_succeed_witness :
    (effectivePaths twoPaths).map (newRequest plainURL twoPaths "http://target") =
      [⟨"GET", "http://target/a", "", []⟩, ⟨"GET", "http://target/b", "", []⟩].map Except.ok ∧
    (∀ a ∈ sendAll loggingClient
        [⟨"GET", "http://target/a", "", []⟩, ⟨"GET", "http://target/b", "", []⟩] [],
      (findingOf literalRegexp twoPaths "http://target" a).isSome = true) ∧
    run literalRegexp plainURL loggingClient twoPaths "http://target" [] =
      (.returned [⟨true, "two at http://target/a (1 matches)"⟩,
                  ⟨false, "two at http://target/b (0 matches)"⟩] none,
        ["http://target/a", "http://target/b"]) ∧
    ∃ out, (run literalRegexp plainURL loggingClient twoPaths "http://target" []).1
        = .returned out none ∧
      out.length = (effectivePaths twoPaths).length ∧
      out.map some = (sendAll loggingClient
          [⟨"GET", "http://target/a", "", []⟩, ⟨"GET", "http://target/b", "", []⟩] []).map
        (findingOf literalRegexp twoPaths "http://target") :=
  ⟨by decide, by decide, by decide,
    (run_all_paths_succeed literalRegexp plainURL loggingClient twoPaths "http://target" []
      [⟨"GET", "http://target/a", "", []⟩, ⟨"GET", "http://target/b", "", []⟩]
      (by decide) (by decide)).1⟩

/-! ## Module runner: errors -/

theorem runLoop_split {σ : Type} (re : RegexpLib)
    (urlParse : String → Except String String) (client : Client σ) (m : module)
    (baseURL : String) (pre rest : List String) (reqs : List Request)
    (hreqs : pre.map (newRequest urlParse m baseURL) = reqs.map Except.ok)
    (out : List finding) (s : σ)
    (hall : ∀ a ∈ sendAll client reqs s, (findingOf re m baseURL a).isSome = true) :
    runLoop re urlParse client m baseURL (pre ++ rest) out s =
      runLoop re urlParse client m baseURL rest
        (out ++ findingsFor re client m baseURL reqs s) (stateAfter client reqs s) := by
  induction pre generalizing reqs out s with
  | nil =>
    cases reqs with
    | nil => simp [findingsFor, sendAll, stateAfter]
    | cons req more => simp at hreqs
  | cons p ps ih =>
    cases reqs with
    | nil => simp at hreqs
    | cons req more =>
      simp only [List.map_cons, List.cons.injEq] at hreqs
      obtain ⟨hreq, hmore⟩ := hreqs
      have hp := hall _ (List.mem_cons_self _ _)
      have hps : ∀ a ∈ sendAll client more (client.Do s req).2,
          (findingOf re m baseURL a).isSome = true :=
        fun a ha => hall a (List.mem_cons_of_mem _ ha)
      rcases hdo : client.Do s req with ⟨r, s1⟩
      rw [hdo] at hp hps
      cases r with
      | error e => simp [findingOf] at hp
      | ok resp =>
        cases hbody : resp.Body with
        | error e => simp [findingOf, hbody] at hp
        | ok body =>
          cases hchk : checkMatches re m resp body baseURL with
          | error e => simp [findingOf, hbody, hchk] at hp
          | panic => simp [findingOf, hbody, hchk] at hp
          | ok f =>
            have h1 := ih more hmore (out ++ [f]) s1 hps
            simp only [List.cons_append, runLoop, hreq, hdo, hbody, hchk]
            refine h1.trans ?_
            simp [findingsFor, sendAll, stateAfter, hdo, findingOf, hbody, hchk]

theorem length_findingsFor {σ : Type} (re : RegexpLib) (client : Client σ) (m : module)
    (baseURL : String) (reqs : List Request) (s : σ)
    (hall : ∀ a ∈ sendAll client reqs s, (findingOf re m baseURL a).isSome = true) :
    (findingsFor re client m baseURL reqs s).length = reqs.length := by
  induction reqs generalizing s with
  | nil => rfl
  | cons req more ih =>
    have hp := hall _ (List.mem_cons_self _ _)
    have hps : ∀ a ∈ sendAll client more (client.Do s req).2,
        (findingOf re m baseURL a).isSome = true :=
      fun a ha => hall a (List.mem_cons_of_mem _ ha)
    obtain ⟨f, hf⟩ := Option.isSome_iff_exists.mp hp
    have := ih _ hps
    simp only [findingsFor] at this ⊢
    simp [sendAll, List.filterMap_cons, hf, this]

/-- C11: what `run` returns when the paths before `p` are processed without
error and an error occurs at `p`. For an evaluation error the findings
accumulated so far are returned with the error; for a request-build,
transport or body-read error the error is returned with no findings at
all, also when findings were accumulated. -/
theorem run_error_findings {σ : Type} (re : RegexpLib)
    (urlParse : String → Except String String) (client : Client σ) (m : module)
    (baseURL : String) (s : σ) (pre post : List String) (p : String) (reqs : List Request)
    (hpaths : effectivePaths m = pre ++ p :: post)
    (hreqs : pre.map (newRequest urlParse m baseURL) = reqs.map Except.ok)
    (hall : ∀ a ∈ sendAll client reqs s, (findingOf re m baseURL a).isSome = true) :
    (findingsFor re client m baseURL reqs s).length = pre.length ∧
    (∀ e, newRequest urlParse m baseURL p = .error e →
      (run re urlParse client m baseURL s).1 = .returned [] (some e)) ∧
    (∀ req e, newRequest urlParse m baseURL p = .ok req →
      (client.Do (stateAfter client reqs s) req).1 = .error e →
      (run re urlParse client m baseURL s).1 = .returned [] (some e)) ∧
    (∀ req resp e, newRequest urlParse m baseURL p = .ok req →
      (client.Do (stateAfter client reqs s) req).1 = .ok resp → resp.Body = .error e →
      (run re urlParse client m baseURL s).1 = .returned [] (some e)) ∧
    (∀ req resp body e, newRequest urlParse m baseURL p = .ok req →
      (client.Do (stateAfter client reqs s) req).1 = .ok resp → resp.Body = .ok body →
      checkMatches re m resp body baseURL = .error e →
      (run re urlParse client m baseURL s).1 =
        .returned (findingsFor re client m baseURL reqs s) (some e)) := by
  have hlen : (findingsFor re client m baseURL reqs s).length = pre.length := by
    rw [length_findingsFor re client m baseURL reqs s hall]
    have := congrArg List.length hreqs
    simpa using this.symm
  have hrun : run re urlParse client m baseURL s =
      runLoop re urlParse client m baseURL (p :: post)
        (findingsFor re client m baseURL reqs s) (stateAfter client reqs s) := by
    simp only [run, run_paths_eq, hpaths]
    rw [runLoop_split re urlParse client m baseURL pre (p :: post) reqs hreqs [] s hall]
    simp
  refine ⟨hlen, ?_, ?_, ?_, ?_⟩
  · intro e he
    simp only [hrun, runLoop, he]
  · intro req e hreq hdo
    rcases hd : client.Do (stateAfter client reqs s) req with ⟨r, s1⟩
    rw [hd] at hdo
    simp only at hdo
    subst hdo
    simp only [hrun, runLoop, hreq, hd]
  · intro req resp e hreq hdo hbody
    rcases hd : client.Do (stateAfter client reqs s) req with ⟨r, s1⟩
    rw [hd] at hdo
    simp only at hdo
    subst hdo
    simp only [hrun, runLoop, hreq, hd, hbody]
  · intro req resp body e hreq hdo hbody hchk
    rcases hd : client.Do (stateAfter client reqs s) req with ⟨r, s1⟩
    rw [hd] at hdo
    simp only at hdo
    subst hdo
    simp only [hrun, runLoop, hreq, hd, hbody, hchk]

/-- Evaluation of C11 at a concrete input: for `twoPaths` the path `/a` is
processed without error and yields one finding; the transport error at `/b`
makes `run` return the error with no finding. -/
theorem run_error_findings_witness :
    effectivePaths twoPaths = ["/a"] ++ "/b" :: [] ∧
    (findingsFor literalRegexp flakyClient twoPaths "http://target"
      [⟨"GET", "http://target/a", "", []⟩] ()).length = 1 ∧
    run literalRegexp plainURL flakyClient twoPaths "http://target" () =
      (.returned [] (some "connection refused"), ()) ∧
    (run literalRegexp plainURL flakyClient twoPaths "http://target" ()).1 =
      .returned [] (some "connection refused") :=
  ⟨by decide, by decide, by decide,
    (run_error_findings literalRegexp plainURL flakyClient twoPaths "http://target" ()
      ["/a"] [] "/b" [⟨"GET", "http://target/a", "", []⟩] (by decide) (by decide)
      (by decide)).2.2.1 ⟨"GET", "http://target/b", "", []⟩ "connection refused"
      (by decide) rfl⟩

/-! ## Module runner: the requests issued -/

theorem recording_Do {σ : Type} (client : Client σ) (s : σ) (log : List Request)
    (req : Request) :
    (recording client).Do (s, log) req =
      ((client.Do s req).1, ((client.Do s req).2, log ++ [req])) := rfl

theorem sendAll_recording {σ : Type} (client : Client σ) (reqs : List Request) (s : σ)
    (log : List Request) :
    sendAll (recording client) reqs (s, log) = sendAll client reqs s := by
  induction reqs generalizing s log with
  | nil => rfl
  | cons req more ih =>
    simp only [sendAll, recording_Do, ih]

theorem stateAfter_recording {σ : Type} (client : Client σ) (reqs : List Request) (s : σ)
    (log : List Request) :
    stateAfter (recording client) reqs (s, log) = (stateAfter client reqs s, log ++ reqs) := by
  induction reqs generalizing s log with
  | nil => simp [stateAfter]
  | cons req more ih =>
    simp only [stateAfter, recording_Do, ih]
    simp

theorem runLoop_recording_fst {σ : Type} (re : RegexpLib)
    (urlParse : String → Except String String) (client : Client σ) (m : module)
    (baseURL : String) (paths : List String) (out : List finding) (s : σ)
    (log : List Request) :
    (runLoop re urlParse (recording client) m baseURL paths out (s, log)).1 =
      (runLoop re urlParse client m baseURL paths out s).1 := by
  induction paths generalizing out s log with
  | nil => rfl
  | cons p ps ih =>
    cases hreq : newRequest urlParse m baseURL p with
    | error e => simp [runLoop, hreq]
    | ok req =>
      rcases hdo : client.Do s req with ⟨r, s1⟩
      have hrec : (recording client).Do (s, log) req = (r, (s1, log ++ [req])) := by
        simp [recording, hdo]
      cases r with
      | error e => simp [runLoop, hreq, hdo, hrec]
      | ok resp =>
        cases hbody : resp.Body with
        | error e => simp [runLoop, hreq, hdo, hrec, hbody]
        | ok body =>
          cases hchk : checkMatches re m resp body baseURL with
          | error e => simp [runLoop, hreq, hdo, hrec, hbody, hchk]
          | panic => simp [runLoop, hreq, hdo, hrec, hbody, hchk]
          | ok f => simp [runLoop, hreq, hdo, hrec, hbody, hchk, ih]

theorem runLoop_recording_log {σ : Type} (re : RegexpLib)
    (urlParse : String → Except String String) (client : Client σ) (m : module)
    (baseURL : String) (paths : List String) (out : List finding) (s : σ)
    (log : List Request) :
    ∃ k, k ≤ paths.length ∧
      (runLoop re urlParse (recording client) m baseURL paths out (s, log)).2.2.map Except.ok =
        log.map Except.ok ++ (paths.take k).map (newRequest urlParse m baseURL) := by
  induction paths generalizing out s log with
  | nil => exact ⟨0, le_refl _, by simp [runLoop]⟩
  | cons p ps ih =>
    cases hreq : newRequest urlParse m baseURL p with
    | error e => exact ⟨0, Nat.zero_le _, by simp [runLoop, hreq]⟩
    | ok req =>
      rcases hdo : client.Do s req with ⟨r, s1⟩
      have hrec : (recording client).Do (s, log) req = (r, (s1, log ++ [req])) := by
        simp [recording, hdo]
      cases r with
      | error e => exact ⟨1, by simp, by simp [runLoop, hreq, hrec]⟩
      | ok resp =>
        cases hbody : resp.Body with
        | error e => exact ⟨1, by simp, by simp [runLoop, hreq, hrec, hbody]⟩
        | ok body =>
          cases hchk : checkMatches re m resp body baseURL with
          | error e => exact ⟨1, by simp, by simp [runLoop, hreq, hrec, hbody, hchk]⟩
          | panic => exact ⟨1, by simp, by simp [runLoop, hreq, hrec, hbody, hchk]⟩
          | ok f =>
            obtain ⟨k, hk, hlog⟩ := ih (out ++ [f]) s1 (log ++ [req])
            refine ⟨k + 1, by simp [hk], ?_⟩
            simp only [runLoop, hreq, hrec, hbody, hchk, hlog]
            simp [hreq]

/-- C12: when the paths before `p` are processed without error and the step
at `p` fails (build, transport, body read or evaluation), the requests that
`run` hands to the client are exactly those of the paths before `p`,
followed by the request for `p` when it could be built: one call per path,
in path order, and none for a later path. In every run the calls are the
requests of an initial segment of the paths. For `paths = ["/a", "/b"]` and
a transport failure on `/a`, `run` returns an error and no finding, and only
`/a` was requested. -/
theorem run_no_request_after_error {σ : Type} (re : RegexpLib)
    (urlParse : String → Except String String) (client : Client σ) (m : module)
    (baseURL : String) (s : σ) (pre post : List String) (p : String) (reqs : List Request)
    (hpaths : effectivePaths m = pre ++ p :: post)
    (hreqs : pre.map (newRequest urlParse m baseURL) = reqs.map Except.ok)
    (hall : ∀ a ∈ sendAll client reqs s, (findingOf re m baseURL a).isSome = true)
    (hfail : findingAtPath re urlParse client m baseURL p (stateAfter client reqs s) = none) :
    ((run re urlParse (recording client) m baseURL (s, [])).2.2 =
        reqs ++ (match newRequest urlParse m baseURL p with
                 | .ok req => [req]
                 | .error _ => [])) ∧
    (run re urlParse (recording client) m baseURL (s, [])).2.2.length ≤ pre.length + 1 ∧
    (∃ k, k ≤ (effectivePaths m).length ∧
      (run re urlParse (recording client) m baseURL (s, [])).2.2.map Except.ok =
        ((effectivePaths m).take k).map (newRequest urlParse m baseURL)) ∧
    (run re urlParse (recording client) m baseURL (s, [])).1 =
      (run re urlParse client m baseURL s).1 ∧
    run literalRegexp plainURL (recording deadClient) twoPaths "http://target" ((), []) =
      (.returned [] (some "connection refused"),
        ((), [⟨"GET", "http://target/a", "", []⟩])) := by
  have hallr : ∀ a ∈ sendAll (recording client) reqs (s, []),
      (findingOf re m baseURL a).isSome = true := by
    rw [sendAll_recording]
    exact hall
  have hrun : run re urlParse (recording client) m baseURL (s, []) =
      runLoop re urlParse (recording client) m baseURL (p :: post)
        (findingsFor re (recording client) m baseURL reqs (s, []))
        (stateAfter client reqs s, reqs) := by
    simp only [run, run_paths_eq, hpaths]
    rw [runLoop_split re urlParse (recording client) m baseURL pre (p :: post) reqs hreqs []
      (s, []) hallr, stateAfter_recording]
    simp
  have hlog : (run re urlParse (recording client) m baseURL (s, [])).2.2 =
      reqs ++ (match newRequest urlParse m baseURL p with
               | .ok req => [req]
               | .error _ => []) := by
    rw [hrun]
    cases hreq : newRequest urlParse m baseURL p with
    | error e => simp [runLoop, hreq]
    | ok req =>
      have hf := hfail
      simp only [findingAtPath, hreq] at hf
      rcases hdo : client.Do (stateAfter client reqs s) req with ⟨r, s1⟩
      rw [hdo] at hf
      have hrec : (recording client).Do (stateAfter client reqs s, reqs) req =
          (r, (s1, reqs ++ [req])) := by
        simp [recording, hdo]
      cases r with
      | error e => simp [runLoop, hreq, hrec]
      | ok resp =>
        cases hbody : resp.Body with
        | error e => simp [runLoop, hreq, hrec, hbody]
        | ok body =>
          cases hchk : checkMatches re m resp body baseURL with
          | error e => simp [runLoop, hreq, hrec, hbody, hchk]
          | panic => simp [runLoop, hreq, hrec, hbody, hchk]
          | ok f => simp [findingOf, hbody, hchk] at hf
  refine ⟨hlog, ?_, ?_, ?_, by decide⟩
  · rw [hlog]
    have hl := congrArg List.length hreqs
    simp only [List.length_map] at hl
    cases newRequest urlParse m baseURL p <;> simp [hl]
  · obtain ⟨k, hk, h⟩ :=
      runLoop_recording_log re urlParse client m baseURL (effectivePaths m) [] s []
    refine ⟨k, hk, ?_⟩
    simp only [run, run_paths_eq]
    simpa using h
  · simp only [run, run_paths_eq]
    exact runLoop_recording_fst re urlParse client m baseURL _ [] s []

/-- Witness for C12: `twoPaths` against a target that answers `/a` and
cannot be reached for `/b`, with a third path after them: the client was
called for `/a` and `/b` and not for `/c`. -/
theorem run_no_request_after_error_witness :
    effectivePaths { twoPaths with
        Request := { twoPaths.Request with Paths := ["/a", "/b", "/c"] } }
      = ["/a"] ++ "/b" :: ["/c"] ∧
    (run literalRegexp plainURL (recording flakyClient)
        { twoPaths with Request := { twoPaths.Request with Paths := ["/a", "/b", "/c"] } }
        "http://target" ((), [])).2.2 =
      [⟨"GET", "http://target/a", "", []⟩, ⟨"GET", "http://target/b", "", []⟩] ∧
    (run literalRegexp plainURL (recording flakyClient)
        { twoPaths with Request := { twoPaths.Request with Paths := ["/a", "/b", "/c"] } }
        "http://target" ((), [])).2.2.length ≤ ["/a"].length + 1 :=
  ⟨by decide, by decide,
    (run_no_request_after_error literalRegexp plainURL flakyClient
      { twoPaths with Request := { twoPaths.Request with Paths := ["/a", "/b", "/c"] } }
      "http://target" () ["/a"] ["/c"] "/b" [⟨"GET", "http://target/a", "", []⟩]
      (by decide) (by decide) (by decide) (by decide)).2.1⟩

/-! ## End to end: a status module -/

/-- The module that `newModule` returns for a decoded definition that passes
validation. -/
theorem newModule_ok_eq (osOpen : String → Except String String)
    (jsonDecode : String → Except String module) (filename text : String) (d : module)
    (hopen : osOpen filename = .ok text) (hdec : jsonDecode text = .ok d)
    (hpath : d.Request.Path ≠ "" ∨ d.Request.Paths ≠ [])
    (hmatch : d.Response.Matches ≠ []) :
    newModule osOpen jsonDecode filename =
      .ok { File := filename,
            Name := if d.Name = "" then filename else d.Name,
            Request := d.Request,
            Response := { Matches := d.Response.Matches,
                          MustNotMatch := d.Response.MustNotMatch,
                          MatchesRequired := if d.Response.MatchesRequired = 0 then 1
                            else d.Response.MatchesRequired } } := by
  have h1 : ¬ (d.Request.Path = "" ∧ d.Request.Paths = []) := by
    rintro ⟨ha, hb⟩
    rcases hpath with hp | hp
    · exact hp ha
    · exact hp hb
  simp only [newModule, hopen, hdec, List.length_eq_zero]
  by_cases hn : d.Name = "" <;> by_cases hr : d.Response.MatchesRequired = 0 <;>
    simp [hn, hr, if_neg h1, hmatch]

theorem newRequest_congr (urlParse : String → Except String String) (m d : module)
    (h : m.Request = d.Request) (baseURL path : String) :
    newRequest urlParse m baseURL path = newRequest urlParse d baseURL path := by
  simp only [newRequest, h]

theorem effectivePaths_congr (m d : module) (h : m.Request = d.Request) :
    effectivePaths m = effectivePaths d := by
  simp only [effectivePaths, h]

theorem checkMatches_single_status (re : RegexpLib) (m : module) (resp : Response)
    (body baseURL : String) (rule : moduleMatch) (hm : m.Response.Matches = [rule])
    (hn : m.Response.MustNotMatch = []) (hk : m.Response.MatchesRequired = 1)
    (hty : rule.Type_ = "status") :
    ∃ f, checkMatches re m resp body baseURL = .ok f ∧
      f.Hit = decide (resp.StatusCode = rule.Code) := by
  have htest : test re resp rule body = .ok (decide (resp.StatusCode = rule.Code)) := by
    simp [test, hty]
  have hev : EvalSucceeds re resp body (m.Response.Matches ++ m.Response.MustNotMatch) := by
    intro r hr
    rw [hm, hn] at hr
    simp only [List.append_nil, List.mem_singleton] at hr
    subst hr
    exact ⟨_, htest⟩
  refine ⟨_, checkMatches_ok re m resp body baseURL hev, ?_⟩
  have hrm : ruleMatches re resp body rule = decide (resp.StatusCode = rule.Code) := by
    simp [ruleMatches, htest]
  simp only [satisfiedCount, forceNoHit, hm, hn, hk]
  by_cases hs : resp.StatusCode = rule.Code
  · simp [hrm, hs]
  · cases rule.Required <;> simp [hrm, hs]

/-- C13: a module definition with a single path, no negative rules,
`matchesRequired` unset and one rule of type status with code `c` passes
validation; run against a target that answers the request for that path
with a response of status `st`, it yields no error and exactly one finding,
whose hit flag is true if `st = c` and false otherwise. -/
theorem status_module_end_to_end {σ : Type} (re : RegexpLib)
    (urlParse : String → Except String String) (client : Client σ)
    (osOpen : String → Except String String) (jsonDecode : String → Except String module)
    (filename text : String) (d : module) (baseURL path : String) (c st : Int)
    (rule : moduleMatch) (req : Request) (resp : Response) (body : String) (s s1 : σ)
    (hopen : osOpen filename = .ok text) (hdec : jsonDecode text = .ok d)
    (hvalid : d.Request.Path ≠ "" ∨ d.Request.Paths ≠ [])
    (hsingle : effectivePaths d = [path])
    (hneg : d.Response.MustNotMatch = [])
    (hunset : d.Response.MatchesRequired = 0)
    (hrule : d.Response.Matches = [rule]) (hty : rule.Type_ = "status")
    (hcode : rule.Code = c)
    (hreq : newRequest urlParse d baseURL path = .ok req)
    (hdo : client.Do s req = (.ok resp, s1)) (hbody : resp.Body = .ok body)
    (hst : resp.StatusCode = st) :
    ∃ m f, newModule osOpen jsonDecode filename = .ok m ∧
      run re urlParse client m baseURL s = (.returned [f] none, s1) ∧
      f.Hit = decide (st = c) ∧
      (st = c → f.Hit = true) ∧ (st ≠ c → f.Hit = false) := by
  have hmatch : d.Response.Matches ≠ [] := by simp [hrule]
  have hnew := newModule_ok_eq osOpen jsonDecode filename text d hopen hdec hvalid hmatch
  obtain ⟨f, hf, hhit⟩ := checkMatches_single_status re
    { File := filename,
      Name := if d.Name = "" then filename else d.Name,
      Request := d.Request,
      Response := { Matches := d.Response.Matches,
                    MustNotMatch := d.Response.MustNotMatch,
                    MatchesRequired := if d.Response.MatchesRequired = 0 then 1
                      else d.Response.MatchesRequired } }
    resp body baseURL rule hrule hneg (by simp [hunset]) hty
  rw [hst, hcode] at hhit
  refine ⟨_, f, hnew, ?_, hhit, ?_, ?_⟩
  · have hp := effectivePaths_congr
      { File := filename,
        Name := if d.Name = "" then filename else d.Name,
        Request := d.Request,
        Response := { Matches := d.Response.Matches,
                      MustNotMatch := d.Response.MustNotMatch,
                      MatchesRequired := if d.Response.MatchesRequired = 0 then 1
                        else d.Response.MatchesRequired } } d rfl
    have hr := newRequest_congr urlParse
      { File := filename,
        Name := if d.Name = "" then filename else d.Name,
        Request := d.Request,
        Response := { Matches := d.Response.Matches,
                      MustNotMatch := d.Response.MustNotMatch,
                      MatchesRequired := if d.Response.MatchesRequired = 0 then 1
                        else d.Response.MatchesRequired } } d rfl baseURL path
    rw [hreq] at hr
    simp only [run, run_paths_eq, hp, hsingle, runLoop, hr, hdo, hbody, hf]
    rfl
  · intro h
    simp [hhit, h]
  · intro h
    simp [hhit, h]

/-- Witness for C13: the module of the example (`GET /admin`, one rule
`status 200`) against a target that answers 200 is a hit, against a target
that answers 404 it is not. -/
theorem status_module_end_to_end_witness :
    (∃ m f, newModule (fileWith "text") (decodeTo decodedAdmin) "admin.json" = .ok m ∧
      run literalRegexp plainURL (statusClient 200) m "http://target" () =
        (.returned [f] none, ()) ∧ f.Hit = true) ∧
    (∃ m f, newModule (fileWith "text") (decodeTo decodedAdmin) "admin.json" = .ok m ∧
      run literalRegexp plainURL (statusClient 404) m "http://target" () =
        (.returned [f] none, ()) ∧ f.Hit = false) :=
  ⟨(status_module_end_to_end literalRegexp plainURL (statusClient 200) (fileWith "text")
      (decodeTo decodedAdmin) "admin.json" "text" decodedAdmin "http://target" "/admin"
      200 200 ⟨"status", "", false, 200, ""⟩ ⟨"GET", "http://target/admin", "", []⟩
      { StatusCode := 200, Header := [], Body := .ok "",
        Request := ⟨"GET", "http://target/admin", "", []⟩ } "" () ()
      rfl rfl (by decide) (by decide) (by decide) (by decide) (by decide) (by decide)
      (by decide) (by decide) rfl rfl rfl).imp
      (fun _ h => h.imp (fun _ h2 => ⟨h2.1, h2.2.1, h2.2.2.2.1 rfl⟩)),
   (status_module_end_to_end literalRegexp plainURL (statusClient 404) (fileWith "text")
      (decodeTo decodedAdmin) "admin.json" "text" decodedAdmin "http://target" "/admin"
      200 404 ⟨"status", "", false, 200, ""⟩ ⟨"GET", "http://target/admin", "", []⟩
      { StatusCode := 404, Header := [], Body := .ok "",
        Request := ⟨"GET", "http://target/admin", "", []⟩ } "" () ()
      rfl rfl (by decide) (by decide) (by decide) (by decide) (by decide) (by decide)
      (by decide) (by decide) rfl rfl rfl).imp
      (fun _ h => h.imp (fun _ h2 => ⟨h2.1, h2.2.1, h2.2.2.2.2 (by decide)⟩))⟩

/-! ## Concurrency controller -/

/-- The dispatcher invariant for capacity `N`: the slots held are those of the
running units and those taken by `wait`, and the semaphore is within its
capacity. -/
theorem dispatcher_step_inv (N : Nat) (d d1 : Dispatcher) (ev : Event)
    (hstep : d.step ev = some d1)
    (hinv : d.sem.cap = N ∧ d.sem.len ≤ N ∧ d.released ≤ d.dispatched ∧
      d.sem.len = (d.dispatched - d.released) + d.waitAcquired) :
    d1.sem.cap = N ∧ d1.sem.len ≤ N ∧ d1.released ≤ d1.dispatched ∧
      d1.sem.len = (d1.dispatched - d1.released) + d1.waitAcquired := by
  obtain ⟨hcap, hlen, hrel, hheld⟩ := hinv
  cases ev with
  | dispatch =>
    simp only [Dispatcher.step, semaphore.acquire] at hstep
    split_ifs at hstep with h1 h2
    cases hstep
    simp only
    omega
  | unitRelease =>
    simp only [Dispatcher.step, semaphore.release] at hstep
    split_ifs at hstep with h1 h2
    cases hstep
    simp only
    omega
  | callWait =>
    simp only [Dispatcher.step] at hstep
    split_ifs at hstep with h1
    cases hstep
    simp only
    omega
  | waitAcquire =>
    simp only [Dispatcher.step, semaphore.acquire] at hstep
    split_ifs at hstep with h1 h2
    cases hstep
    simp only
    omega

theorem dispatcher_exec_inv (N : Nat) (evs : List Event) (d d1 : Dispatcher)
    (hexec : d.exec evs = some d1)
    (hinv : d.sem.cap = N ∧ d.sem.len ≤ N ∧ d.released ≤ d.dispatched ∧
      d.sem.len = (d.dispatched - d.released) + d.waitAcquired) :
    d1.sem.cap = N ∧ d1.sem.len ≤ N ∧ d1.released ≤ d1.dispatched ∧
      d1.sem.len = (d1.dispatched - d1.released) + d1.waitAcquired := by
  induction evs generalizing d with
  | nil =>
    simp only [Dispatcher.exec, Option.some.injEq] at hexec
    subst hexec
    exact hinv
  | cons ev rest ih =>
    simp only [Dispatcher.exec] at hexec
    cases hs : d.step ev with
    | none => simp [hs] at hexec
    | some d2 =>
      simp only [hs] at hexec
      exact ih d2 hexec (dispatcher_step_inv N d d2 ev hs hinv)

theorem dispatcher_start_inv (N : Nat) :
    (Dispatcher.start N).sem.cap = N ∧ (Dispatcher.start N).sem.len ≤ N ∧
      (Dispatcher.start N).released ≤ (Dispatcher.start N).dispatched ∧
      (Dispatcher.start N).sem.len =
        ((Dispatcher.start N).dispatched - (Dispatcher.start N).released) +
          (Dispatcher.start N).waitAcquired := by
  simp [Dispatcher.start, newSemaphore]

theorem semaphore_exec_inv (ops : List SemOp) (s s1 : semaphore)
    (hexec : s.exec ops = some s1) (hlen : s.len ≤ s.cap) :
    s1.cap = s.cap ∧ s1.len ≤ s1.cap := by
  induction ops generalizing s with
  | nil =>
    simp only [semaphore.exec, Option.some.injEq] at hexec
    subst hexec
    exact ⟨rfl, hlen⟩
  | cons op rest ih =>
    simp only [semaphore.exec] at hexec
    cases hs : s.step op with
    | none => simp [hs] at hexec
    | some s2 =>
      simp only [hs] at hexec
      have h2 : s2.cap = s.cap ∧ s2.len ≤ s2.cap := by
        cases op with
        | acquire =>
          simp only [semaphore.step, semaphore.acquire] at hs
          split_ifs at hs with h1
          cases hs
          exact ⟨rfl, h1⟩
        | release =>
          simp only [semaphore.step, semaphore.release] at hs
          split_ifs at hs with h1
          cases hs
          exact ⟨rfl, by simp only; omega⟩
      obtain ⟨hc, hl⟩ := ih s2 hexec h2.2
      exact ⟨hc.trans h2.1, hl⟩

theorem semaphore_full_blocks (ops : List SemOp) (s : semaphore) (hfull : s.len = s.cap)
    (hno : SemOp.release ∉ ops) : s.exec (ops ++ [SemOp.acquire]) = none := by
  have hacq : s.acquire = none := by simp [semaphore.acquire, hfull]
  cases ops with
  | nil => simp [semaphore.exec, semaphore.step, hacq]
  | cons op rest =>
    cases op with
    | acquire => simp [semaphore.exec, semaphore.step, hacq]
    | release => simp at hno

/-- C14: for a semaphore of capacity `N >= 1`, stepped by acquire (enabled
only below `N` held slots, adds one) and release (removes one): every
reachable state holds at most `N` slots, so at most `N` dispatched units run
at once; an acquire on a full semaphore does not complete, and from a full
semaphore no acquire completes before a release has occurred. With `N = 2`
a third acquire is blocked until one of the first two slots is released. -/
theorem semaphore_bounded (N : Nat) (hN : 1 ≤ N) :
    (∀ ops s, (newSemaphore N).exec ops = some s → s.cap = N ∧ s.len ≤ N) ∧
    (∀ evs d, (Dispatcher.start N).exec evs = some d → d.running ≤ d.sem.len ∧ d.running ≤ N) ∧
    (∀ s : semaphore, s.cap = N → s.len = N → s.acquire = none) ∧
    (∀ (s : semaphore) ops, s.cap = N → s.len = N → SemOp.release ∉ ops →
      s.exec (ops ++ [SemOp.acquire]) = none) ∧
    (newSemaphore 2).exec [.acquire, .acquire] = some ⟨2, 2⟩ ∧
    (newSemaphore 2).exec [.acquire, .acquire, .acquire] = none ∧
    (newSemaphore 2).exec [.acquire, .acquire, .release, .acquire] = some ⟨2, 2⟩ := by
  have _ := hN
  refine ⟨?_, ?_, ?_, ?_, by decide, by decide, by decide⟩
  · intro ops s h
    obtain ⟨hc, hl⟩ := semaphore_exec_inv ops (newSemaphore N) s h (by simp [newSemaphore])
    have hcap : s.cap = N := by simpa [newSemaphore] using hc
    exact ⟨hcap, hcap ▸ hl⟩
  · intro evs d h
    obtain ⟨_, hlen, hrel, hheld⟩ :=
      dispatcher_exec_inv N evs (Dispatcher.start N) d h (dispatcher_start_inv N)
    simp only [Dispatcher.running]
    omega
  · intro s hc hl
    simp [semaphore.acquire, hc, hl]
  · intro s ops hc hl hno
    exact semaphore_full_blocks ops s (hl.trans hc.symm) hno

/-- Witness for C14 at `N = 2`: after two acquires both slots are held and a
third acquire does not complete. -/
theorem semaphore_bounded_witness :
    1 ≤ 2 ∧
    (∀ ops s, (newSemaphore 2).exec ops = some s → s.cap = 2 ∧ s.len ≤ 2) ∧
    (⟨2, 2⟩ : semaphore).acquire = none :=
  ⟨by decide, (semaphore_bounded 2 (by decide)).1,
    (semaphore_bounded 2 (by decide)).2.2.1 ⟨2, 2⟩ rfl rfl⟩

theorem waitLoop_eq (i : Nat) (s : semaphore) (hlen : s.len ≤ s.cap) :
    semaphore.waitLoop i s =
      if s.len + i ≤ s.cap then some { cap := s.cap, len := s.len + i } else none := by
  induction i generalizing s with
  | zero => simp [semaphore.waitLoop, hlen]
  | succ i ih =>
    by_cases h : s.len < s.cap
    · simp only [semaphore.waitLoop, semaphore.acquire, h, if_true]
      rw [ih { s with len := s.len + 1 } h]
      by_cases h2 : s.len + (i + 1) ≤ s.cap
      · have h3 : s.len + 1 + i ≤ s.cap := by omega
        simp [h2, h3]
        omega
      · have h3 : ¬ s.len + 1 + i ≤ s.cap := by omega
        simp [h2, h3]
    · have h2 : ¬ s.len + (i + 1) ≤ s.cap := by omega
      simp [semaphore.waitLoop, semaphore.acquire, h, h2]

/-- C15: in every interleaving of dispatches (an acquire followed by the
start of a unit), releases by dispatched units (one each), the call of
`wait` (after which nothing is dispatched) and the acquires of `wait`
(`N` of them, no release): `wait` has not returned while a dispatched unit
has not released its slot, and when it has returned all dispatched units
have released. Run on its own, `wait` completes on a semaphore with no slot
held and does not complete while a slot is held. -/
theorem wait_is_barrier (N : Nat) (evs : List Event) (d : Dispatcher)
    (hexec : (Dispatcher.start N).exec evs = some d) :
    (d.released < d.dispatched → d.waitReturned = false) ∧
    (d.waitReturned = true → d.released = d.dispatched ∧ d.running = 0) ∧
    (newSemaphore N).wait = some ⟨N, N⟩ ∧
    (∀ s : semaphore, s.cap = N → s.len ≤ N → 0 < s.len → s.wait = none) := by
  obtain ⟨hcap, hlen, hrel, hheld⟩ :=
    dispatcher_exec_inv N evs (Dispatcher.start N) d hexec (dispatcher_start_inv N)
  have hret : d.waitReturned = true → d.released = d.dispatched := by
    intro h
    simp only [Dispatcher.waitReturned, Bool.and_eq_true, decide_eq_true_eq] at h
    omega
  refine ⟨?_, ?_, ?_, ?_⟩
  · intro hlt
    cases hw : d.waitReturned with
    | false => rfl
    | true =>
      have := hret hw
      omega
  · intro h
    have := hret h
    exact ⟨this, by simp [Dispatcher.running, this]⟩
  · rw [semaphore.wait, waitLoop_eq _ _ (by simp [newSemaphore])]
    simp [newSemaphore]
  · intro s hc hle hl
    have h : ¬ s.len + s.cap ≤ s.cap := by omega
    rw [semaphore.wait, waitLoop_eq _ _ (by omega)]
    simp [h]

/-- Witness for C15 with `N = 2` and three units: `wait` is called while two
units run, its acquires complete only as the units release, and when it has
returned all three units have released. -/
theorem wait_is_barrier_witness :
    (Dispatcher.start 2).exec [.dispatch, .dispatch, .unitRelease, .dispatch, .callWait,
        .unitRelease, .waitAcquire, .unitRelease, .waitAcquire] =
      some ⟨⟨2, 2⟩, 3, 3, true, 2⟩ ∧
    (Dispatcher.start 2).exec [.dispatch, .dispatch, .callWait, .waitAcquire] = none ∧
    ((⟨⟨2, 2⟩, 3, 3, true, 2⟩ : Dispatcher).waitReturned = true →
      (⟨⟨2, 2⟩, 3, 3, true, 2⟩ : Dispatcher).released = 3 ∧
      (⟨⟨2, 2⟩, 3, 3, true, 2⟩ : Dispatcher).running = 0) :=
  ⟨by decide, by decide,
    (wait_is_barrier 2 [.dispatch, .dispatch, .unitRelease, .dispatch, .callWait,
        .unitRelease, .waitAcquire, .unitRelease, .waitAcquire] ⟨⟨2, 2⟩, 3, 3, true, 2⟩
      (by decide)).2.1⟩

/-! ## Match evaluation: the message -/

/-- C16: when no rule evaluation fails, the finding returned by
`checkMatches` carries the message `<name> at <url> (<count> matches)`, with
the module name, the URL of the request that produced the response, and the
number of matching rules of `matches`; the message does not depend on the
hit flag, on negative rules, or on a required rule failing. -/
theorem checkMatches_message (re : RegexpLib) (m : module) (resp : Response)
    (body baseURL : String)
    (h : EvalSucceeds re resp body (m.Response.Matches ++ m.Response.MustNotMatch)) :
    ∃ f, checkMatches re m resp body baseURL = .ok f ∧
      f.Msg = m.Name ++ " at " ++ resp.Request.URL ++ " (" ++
        toString (m.Response.Matches.filter
          (fun r => decide (test re resp r body = .ok true))).length ++ " matches)" := by
  refine ⟨_, checkMatches_ok re m resp body baseURL h, ?_⟩
  simp only [findingMsg, satisfiedCount, List.countP_eq_length_filter]
  rfl

/-- Witness for C16: a hit with three matching rules, and a non-hit (a
required rule fails) with one matching rule, both with the same form of
message. -/
theorem checkMatches_message_witness :
    checkMatches literalRegexp sampleModule adminResponse "hello admin" "http://target" =
      .ok ⟨true, "sample at http://target/admin (3 matches)"⟩ ∧
    checkMatches literalRegexp requiredFails adminResponse "hello admin" "http://target" =
      .ok ⟨false, "sample at http://target/admin (1 matches)"⟩ ∧
    ∃ f, checkMatches literalRegexp requiredFails adminResponse "hello admin"
        "http://target" = .ok f ∧
      f.Msg = requiredFails.Name ++ " at " ++ adminResponse.Request.URL ++ " (" ++
        toString (requiredFails.Response.Matches.filter
          (fun r => decide (test literalRegexp adminResponse r "hello admin" = .ok true))).length
        ++ " matches)" :=
  ⟨by decide, by decide,
    checkMatches_message literalRegexp requiredFails adminResponse "hello admin"
      "http://target" (by decide)⟩

/-! ## The unit of work -/

theorem printFindings_eq (findings : List finding) :
    printFindings findings =
      (findings.filter (fun f => f.Hit)).map
        (fun f => Action.print ("finding: " ++ f.Msg ++ "\n")) := by
  induction findings with
  | nil => rfl
  | cons f rest ih =>
    cases hf : f.Hit <;> simp [printFindings, hf, ih]

theorem count_release_printFindings (findings : List finding) :
    (printFindings findings).count Action.release = 0 := by
  rw [printFindings_eq]
  induction findings.filter (fun f => f.Hit) with
  | nil => rfl
  | cons f rest ih => simp [List.count_cons, ih]

theorem logf_no_finding (verbose : Bool) (err line : String) :
    Action.print ("finding: " ++ line) ∉ logf verbose ("request error: " ++ err) := by
  intro hmem
  cases verbose with
  | false => simp [logf] at hmem
  | true =>
    simp only [logf, Bool.not_true, Bool.false_eq_true, if_false, List.mem_singleton,
      Action.print.injEq] at hmem
    have hd := congrArg String.data hmem
    simp only [String.data_append] at hd
    have hh := congrArg List.head? hd
    simp at hh

/-- C17: for a unit of work whose `run` returns: with an error, nothing
is reported as a finding (the only output is the verbose-mode error line)
and the findings returned with the error are discarded, also those with
`hit = true`; without error, the lines printed are exactly those of the
returned findings with `hit = true`, in their order. In both cases the slot
is released exactly once, as the last action. -/
theorem unit_reports_hits {σ : Type} (verbose : Bool) (re : RegexpLib)
    (urlParse : String → Except String String) (client : Client σ) (m : module)
    (baseURL : String) (s : σ) (out : List finding) (err : Option String)
    (hrun : (run re urlParse client m baseURL s).1 = .returned out err) :
    (∀ e, err = some e →
      unitOfWork verbose re urlParse client m baseURL s =
        logf verbose ("request error: " ++ e) ++ [.release] ∧
      ∀ line, Action.print ("finding: " ++ line) ∉
        unitOfWork verbose re urlParse client m baseURL s) ∧
    (err = none →
      unitOfWork verbose re urlParse client m baseURL s =
        (out.filter (fun f => f.Hit)).map
          (fun f => Action.print ("finding: " ++ f.Msg ++ "\n")) ++ [.release]) ∧
    (unitOfWork verbose re urlParse client m baseURL s).count Action.release = 1 ∧
    worker false (.returned [⟨true, "kept"⟩, ⟨false, "dropped"⟩] none) =
      [.print "finding: kept\n", .release] ∧
    worker true (.returned [⟨true, "discarded"⟩] (some "timeout")) =
      [.print "request error: timeout\n", .release] := by
  refine ⟨?_, ?_, ?_, by decide, by decide⟩
  · intro e he
    subst he
    have hu : unitOfWork verbose re urlParse client m baseURL s =
        logf verbose ("request error: " ++ e) ++ [.release] := by
      simp only [unitOfWork, hrun, worker, workerBody]
    refine ⟨hu, ?_⟩
    intro line hmem
    rw [hu] at hmem
    rcases List.mem_append.mp hmem with h1 | h1
    · exact logf_no_finding verbose e line h1
    · simp at h1
  · intro he
    subst he
    simp only [unitOfWork, hrun, worker, workerBody, printFindings_eq]
  · cases err with
    | none =>
      simp only [unitOfWork, hrun, worker, workerBody, List.count_append,
        count_release_printFindings]
      rfl
    | some e =>
      cases verbose <;>
        simp [unitOfWork, hrun, worker, workerBody, logf, List.count_cons]

/-- Witness for C17: `twoPaths` against the target that answers 200 for `/a`
and 404 for `/b` prints the one finding that is a hit; against the target
that cannot be reached for `/b` it prints no finding. Both release once. -/
theorem unit_reports_hits_witness :
    unitOfWork false literalRegexp plainURL loggingClient twoPaths "http://target" [] =
      [.print "finding: two at http://target/a (1 matches)\n", .release] ∧
    unitOfWork true literalRegexp plainURL flakyClient twoPaths "http://target" () =
      [.print "request error: connection refused\n", .release] ∧
    (unitOfWork true literalRegexp plainURL flakyClient twoPaths "http://target" ()).count
      Action.release = 1 :=
  ⟨by decide, by decide,
    (unit_reports_hits true literalRegexp plainURL flakyClient twoPaths "http://target" ()
      [] (some "connection refused") (by decide)).2.2.1⟩

/-! ## Validated modules: the threshold -/

/-- Counterexample to C18: `negativeThreshold` passes validation with
`matchesRequired = -1`, and on `adminResponse` the validated module is a hit
although none of its positive rules matches. -/
theorem validated_hit_without_match :
    ∃ m f, newModule (fileWith "text") (decodeTo negativeThreshold) "negative.json" = .ok m ∧
      m.Response.MatchesRequired = -1 ∧
      EvalSucceeds literalRegexp adminResponse "hello admin"
        (m.Response.Matches ++ m.Response.MustNotMatch) ∧
      checkMatches literalRegexp m adminResponse "hello admin" "http://target" = .ok f ∧
      f.Hit = true ∧
      satisfiedCount literalRegexp adminResponse "hello admin" m.Response.Matches = 0 :=
  ⟨{ negativeThreshold with File := "negative.json", Name := "negative.json" },
    ⟨true, "negative.json at http://target/admin (0 matches)"⟩,
    by decide, by decide, by decide, by decide, by decide, by decide⟩

/-- C18, amended: for a decoded module definition that passes validation
and whose `matchesRequired` is not negative, the validated module has
`matchesRequired >= 1`, and when no rule evaluation fails a finding with
`hit = true` means that at least one rule of `matches` matched. -/
theorem validated_hit_has_match (osOpen : String → Except String String)
    (jsonDecode : String → Except String module) (filename text : String) (d : module)
    (re : RegexpLib) (resp : Response) (body baseURL : String)
    (hopen : osOpen filename = .ok text) (hdec : jsonDecode text = .ok d)
    (hpath : d.Request.Path ≠ "" ∨ d.Request.Paths ≠ [])
    (hmatch : d.Response.Matches ≠ [])
    (hnonneg : 0 ≤ d.Response.MatchesRequired)
    (hev : EvalSucceeds re resp body (d.Response.Matches ++ d.Response.MustNotMatch)) :
    ∃ m f, newModule osOpen jsonDecode filename = .ok m ∧
      1 ≤ m.Response.MatchesRequired ∧
      checkMatches re m resp body baseURL = .ok f ∧
      (f.Hit = true → 1 ≤ satisfiedCount re resp body m.Response.Matches) := by
  have hnew := newModule_ok_eq osOpen jsonDecode filename text d hopen hdec hpath hmatch
  have hreq : (1 : Int) ≤ (if d.Response.MatchesRequired = 0 then 1
      else d.Response.MatchesRequired) := by
    split_ifs with h0
    · exact le_refl _
    · omega
  refine ⟨_, _, hnew, hreq, checkMatches_ok re _ resp body baseURL hev, ?_⟩
  intro hhit
  simp only [Bool.and_eq_true, decide_eq_true_eq] at hhit
  have h1 := le_trans hreq hhit.1
  exact_mod_cast h1

/-- Witness for C18, amended: `decodedAdmin` leaves `matchesRequired` unset;
validated, it requires one match, and on `adminResponse` (status 200) it is
a hit with one matching rule. -/
theorem validated_hit_has_match_witness :
    (0 : Int) ≤ decodedAdmin.Response.MatchesRequired ∧
    checkMatches literalRegexp
        { decodedAdmin with
          File := "admin.json", Name := "admin.json",
          Response := { decodedAdmin.Response with MatchesRequired := 1 } }
        adminResponse "hello admin" "http://target" =
      .ok ⟨true, "admin.json at http://target/admin (1 matches)"⟩ ∧
    ∃ m f, newModule (fileWith "text") (decodeTo decodedAdmin) "admin.json" = .ok m ∧
      1 ≤ m.Response.MatchesRequired ∧
      checkMatches literalRegexp m adminResponse "hello admin" "http://target" = .ok f ∧
      f.Hit = true ∧
      1 ≤ satisfiedCount literalRegexp adminResponse "hello admin" m.Response.Matches := by
  refine ⟨by decide, by decide, ?_⟩
  obtain ⟨m, f, hm, hreq, hf, himp⟩ :=
    validated_hit_has_match (fileWith "text") (decodeTo decodedAdmin) "admin.json" "text"
      decodedAdmin literalRegexp adminResponse "hello admin" "http://target" rfl rfl
      (by decide) (by decide) (by decide) (by decide)
  have hm1 : newModule (fileWith "text") (decodeTo decodedAdmin) "admin.json" =
      .ok { decodedAdmin with
            File := "admin.json", Name := "admin.json",
            Response := { decodedAdmin.Response with MatchesRequired := 1 } } := by
    decide
  rw [hm1] at hm
  cases hm
  have hf1 : checkMatches literalRegexp
      { decodedAdmin with
        File := "admin.json", Name := "admin.json",
        Response := { decodedAdmin.Response with MatchesRequired := 1 } }
      adminResponse "hello admin" "http://target" =
      .ok ⟨true, "admin.json at http://target/admin (1 matches)"⟩ := by
    decide
  rw [hf1] at hf
  cases hf
  exact ⟨_, _, hm1, hreq, hf1, rfl, himp rfl⟩

/-! ## Match evaluation: order of the rules -/

theorem EvalSucceeds_perm (re : RegexpLib) (resp : Response) (body : String)
    (l1 l2 : List moduleMatch) (hp : l1.Perm l2) (h : EvalSucceeds re resp body l2) :
    EvalSucceeds re resp body l1 :=
  fun r hr => h r (hp.mem_iff.mp hr)

theorem any_perm (p : moduleMatch → Bool) (l1 l2 : List moduleMatch) (hp : l1.Perm l2) :
    l1.any p = l2.any p := by
  rw [Bool.eq_iff_iff]
  simp only [List.any_eq_true]
  constructor
  · rintro ⟨x, hx, hpx⟩
    exact ⟨x, hp.mem_iff.mp hx, hpx⟩
  · rintro ⟨x, hx, hpx⟩
    exact ⟨x, hp.mem_iff.mpr hx, hpx⟩

/-- C19: when no rule evaluation fails, replacing `matches` by a permutation
of it and `mustNotMatch` by a permutation of it changes neither the hit flag
nor the match count: `checkMatches` returns the same finding. -/
theorem checkMatches_perm (re : RegexpLib) (m : module) (resp : Response)
    (body baseURL : String) (ps ns : List moduleMatch)
    (hp : ps.Perm m.Response.Matches) (hn : ns.Perm m.Response.MustNotMatch)
    (h : EvalSucceeds re resp body (m.Response.Matches ++ m.Response.MustNotMatch)) :
    satisfiedCount re resp body ps = satisfiedCount re resp body m.Response.Matches ∧
    ∃ f, checkMatches re m resp body baseURL = .ok f ∧
      checkMatches re
        { m with Response := { Matches := ps, MustNotMatch := ns,
                               MatchesRequired := m.Response.MatchesRequired } }
        resp body baseURL = .ok f := by
  have hcount : satisfiedCount re resp body ps =
      satisfiedCount re resp body m.Response.Matches :=
    hp.countP_eq _
  have hev : EvalSucceeds re resp body (ps ++ ns) :=
    EvalSucceeds_perm re resp body _ _ (hp.append hn) h
  refine ⟨hcount, _, checkMatches_ok re m resp body baseURL h, ?_⟩
  rw [checkMatches_ok re _ resp body baseURL hev]
  simp only [forceNoHit, hcount,
    any_perm (fun r => r.Required && !ruleMatches re resp body r) _ _ hp,
    any_perm (ruleMatches re resp body) _ _ hn]

/-- Witness for C19: the three positive rules of `sampleModule` in reverse
order give the same finding on `adminResponse`. -/
theorem checkMatches_perm_witness :
    checkMatches literalRegexp
      { sampleModule with
        Response := { Matches := sampleModule.Response.Matches.reverse,
                      MustNotMatch := sampleModule.Response.MustNotMatch.reverse,
                      MatchesRequired := sampleModule.Response.MatchesRequired } }
      adminResponse "hello admin" "http://target" =
      .ok ⟨true, "sample at http://target/admin (3 matches)"⟩ ∧
    ∃ f, checkMatches literalRegexp sampleModule adminResponse "hello admin" "http://target"
        = .ok f ∧
      checkMatches literalRegexp
        { sampleModule with
          Response := { Matches := sampleModule.Response.Matches.reverse,
                        MustNotMatch := sampleModule.Response.MustNotMatch.reverse,
                        MatchesRequired := sampleModule.Response.MatchesRequired } }
        adminResponse "hello admin" "http://target" = .ok f :=
  ⟨by decide,
    (checkMatches_perm literalRegexp sampleModule adminResponse "hello admin"
      "http://target" sampleModule.Response.Matches.reverse
      sampleModule.Response.MustNotMatch.reverse (List.reverse_perm _) (List.reverse_perm _)
      (by decide)).2⟩

/-! ## Static rules with an empty pattern -/

theorem hasInfix_nil (l : List Char) : hasInfix l [] = true := by
  cases l <;> simp [hasInfix]

theorem test_static_empty (re : RegexpLib) (resp : Response) (body : String)
    (rule : moduleMatch) (hty : rule.Type_ = "static") (hpat : rule.Pattern = "") :
    test re resp rule body = .ok true := by
  simp [test, hty, hpat, stringsContains, hasInfix_nil]

theorem positiveLoop_ok_inv (re : RegexpLib) (resp : Response) (body : String)
    (rules : List moduleMatch) (count : Nat) (mustNotHit : Bool) (x : Nat × Bool)
    (h : positiveLoop re resp body rules count mustNotHit = .ok x) :
    EvalSucceeds re resp body rules := by
  induction rules generalizing count mustNotHit with
  | nil =>
    intro r hr
    cases hr
  | cons r rs ih =>
    cases ht : test re resp r body with
    | error e => simp [positiveLoop, ht] at h
    | panic => simp [positiveLoop, ht] at h
    | ok b =>
      simp only [positiveLoop, ht] at h
      intro y hy
      rcases List.mem_cons.mp hy with rfl | hy1
      · exact ⟨b, ht⟩
      · exact ih _ _ h y hy1

theorem negativeLoop_ok_inv (re : RegexpLib) (resp : Response) (body : String)
    (rules : List moduleMatch) (mustNotHit x : Bool)
    (h : negativeLoop re resp body rules mustNotHit = .ok x) :
    EvalSucceeds re resp body rules := by
  induction rules generalizing mustNotHit with
  | nil =>
    intro r hr
    cases hr
  | cons r rs ih =>
    cases ht : test re resp r body with
    | error e => simp [negativeLoop, ht] at h
    | panic => simp [negativeLoop, ht] at h
    | ok b =>
      simp only [negativeLoop, ht] at h
      intro y hy
      rcases List.mem_cons.mp hy with rfl | hy1
      · exact ⟨b, ht⟩
      · exact ih _ h y hy1

/-- A finding is returned only when no rule evaluation fails. -/
theorem checkMatches_ok_inv (re : RegexpLib) (m : module) (resp : Response)
    (body baseURL : String) (f : finding)
    (h : checkMatches re m resp body baseURL = .ok f) :
    EvalSucceeds re resp body (m.Response.Matches ++ m.Response.MustNotMatch) := by
  simp only [checkMatches] at h
  cases hp : positiveLoop re resp body m.Response.Matches 0 false with
  | error e => simp [hp] at h
  | panic => simp [hp] at h
  | ok x =>
    simp only [hp] at h
    cases hn : negativeLoop re resp body m.Response.MustNotMatch x.2 with
    | error e => simp [hn] at h
    | panic => simp [hn] at h
    | ok y =>
      intro r hr
      rcases List.mem_append.mp hr with h1 | h1
      · exact positiveLoop_ok_inv re resp body _ _ _ _ hp r h1
      · exact negativeLoop_ok_inv re resp body _ _ _ hn r h1

/-- Counterexample to C20: the only rule of `emptyStatic 2` is of type
static with no pattern and there is no negative rule; it passes validation
with `matchesRequired = 2`, and on `adminResponse` the finding has
`hit = false`. -/
theorem empty_static_not_always_hit :
    ∃ m f, newModule (fileWith "text") (decodeTo (emptyStatic 2)) "empty.json" = .ok m ∧
      m.Response.Matches = [⟨"static", "", false, 0, ""⟩] ∧
      m.Response.MustNotMatch = [] ∧
      checkMatches literalRegexp m adminResponse "hello admin" "http://target" = .ok f ∧
      f.Hit = false :=
  ⟨{ emptyStatic 2 with File := "empty.json", Name := "empty.json" },
    ⟨false, "empty.json at http://target/admin (1 matches)"⟩,
    by decide, by decide, by decide, by decide, by decide⟩

/-- C20, amended: a rule of type static with the empty pattern matches every
response and body. As a positive rule it is always counted; as a
negative rule it forces `hit = false` on every response. A validated module
whose only rule it is, with no negative rules and a decoded
`matchesRequired` that is unset or at most 1, yields `hit = true` for every
response. -/
theorem empty_static_always_matches (re : RegexpLib) (rule : moduleMatch)
    (hty : rule.Type_ = "static") (hpat : rule.Pattern = "") :
    (∀ resp body, test re resp rule body = .ok true) ∧
    (∀ (m : module) resp body, rule ∈ m.Response.Matches →
      1 ≤ satisfiedCount re resp body m.Response.Matches) ∧
    (∀ (m : module) resp body baseURL, rule ∈ m.Response.MustNotMatch →
      (∀ f, checkMatches re m resp body baseURL = .ok f → f.Hit = false) ∧
      (EvalSucceeds re resp body (m.Response.Matches ++ m.Response.MustNotMatch) →
        ∃ f, checkMatches re m resp body baseURL = .ok f ∧ f.Hit = false)) ∧
    (∀ osOpen jsonDecode filename text (d : module),
      osOpen filename = .ok text → jsonDecode text = .ok d →
      (d.Request.Path ≠ "" ∨ d.Request.Paths ≠ []) →
      d.Response.Matches = [rule] → d.Response.MustNotMatch = [] →
      d.Response.MatchesRequired ≤ 1 →
      ∃ m, newModule osOpen jsonDecode filename = .ok m ∧
        ∀ resp body baseURL, ∃ f, checkMatches re m resp body baseURL = .ok f ∧
          f.Hit = true) := by
  have htest : ∀ resp body, test re resp rule body = .ok true :=
    fun resp body => test_static_empty re resp body rule hty hpat
  have hrm : ∀ resp body, ruleMatches re resp body rule = true := by
    intro resp body
    simp [ruleMatches, htest]
  refine ⟨htest, ?_, ?_, ?_⟩
  · intro m resp body hmem
    simp only [satisfiedCount]
    exact List.countP_pos_iff.mpr ⟨rule, hmem, hrm resp body⟩
  · intro m resp body baseURL hmem
    have hforce : forceNoHit re resp body m = true := by
      simp only [forceNoHit, Bool.or_eq_true, List.any_eq_true]
      exact Or.inr ⟨rule, hmem, hrm resp body⟩
    have hgood : EvalSucceeds re resp body (m.Response.Matches ++ m.Response.MustNotMatch) →
        ∃ f, checkMatches re m resp body baseURL = .ok f ∧ f.Hit = false := by
      intro hev
      exact ⟨_, checkMatches_ok re m resp body baseURL hev, by simp [hforce]⟩
    refine ⟨?_, hgood⟩
    intro f hf
    obtain ⟨g, hg, hhit⟩ := hgood (checkMatches_ok_inv re m resp body baseURL f hf)
    rw [hf] at hg
    cases hg
    exact hhit
  · intro osOpen jsonDecode filename text d hopen hdec hpath hm hn hle
    have hmatch : d.Response.Matches ≠ [] := by simp [hm]
    refine ⟨_, newModule_ok_eq osOpen jsonDecode filename text d hopen hdec hpath hmatch, ?_⟩
    intro resp body baseURL
    have hev : EvalSucceeds re resp body (d.Response.Matches ++ d.Response.MustNotMatch) := by
      intro r hr
      rw [hm, hn] at hr
      simp only [List.append_nil, List.mem_singleton] at hr
      subst hr
      exact ⟨true, htest resp body⟩
    refine ⟨_, checkMatches_ok re _ resp body baseURL hev, ?_⟩
    simp only [satisfiedCount, forceNoHit, hm, hn, List.countP_cons, List.countP_nil,
      hrm resp body, List.any_cons, List.any_nil]
    by_cases h0 : d.Response.MatchesRequired = 0
    · simp [h0]
    · simp [h0, hle]

/-- Witness for C20, amended: `emptyStatic 0` leaves `matchesRequired`
unset; its rule evaluates to a match on `adminResponse` and the validated
module is a hit on every response. -/
theorem empty_static_always_matches_witness :
    test literalRegexp adminResponse ⟨"static", "", false, 0, ""⟩ "hello admin" = .ok true ∧
    ∃ m, newModule (fileWith "text") (decodeTo (emptyStatic 0)) "empty.json" = .ok m ∧
      ∀ resp body baseURL, ∃ f, checkMatches literalRegexp m resp body baseURL = .ok f ∧
        f.Hit = true :=
  ⟨by decide,
    (empty_static_always_matches literalRegexp ⟨"static", "", false, 0, ""⟩ rfl rfl).2.2.2
      (fileWith "text") (decodeTo (emptyStatic 0)) "empty.json" "text" (emptyStatic 0)
      rfl rfl (by decide) (by decide) (by decide) (by decide)⟩

end UglyDuckling
